import Mathlib

/-!
Verification of mlnx-switchdev-mode (mlnx_switchdev_mode/sriovify.py).

The sysfs tree is modelled as a finite map from paths to entries, where a
path is its list of segments (os.path.join appends segments) and an entry
is either a symbolic link with a target string or a plain file.  Python
exceptions are modelled with an error type returned through Except.  The
kernel reaction to writes on the mlx5_core bind and unbind control files,
and the devlink tool state, are modelled explicitly on a World structure;
a run of the switch orchestrator returns the ordered trace of its
externally visible writes.
-/

/-- Python os.path.basename: the substring after the last slash. -/
def basenameChars : List Char → List Char → List Char
  | [], acc => acc.reverse
  | c :: cs, acc => if c = '/' then basenameChars cs [] else basenameChars cs (c :: acc)

/-- Final path segment of a target string, as os.path.basename computes it. -/
def basename (s : String) : String :=
  ⟨basenameChars s.data []⟩

/-- A sysfs directory entry: a symbolic link with its target, or a plain file.
Marker files such as sriov_numvfs are plain files; driver, physfn, virtfnN
and the netdev device entries are links. -/
inductive Entry where
  | link (target : String)
  | file
deriving DecidableEq, Repr

/-- A finite view of the sysfs tree: association list from path (segment list)
to entry.  Lookup takes the first match, as a real filesystem has one entry
per path. -/
structure Fs where
  entries : List (List String × Entry)
deriving DecidableEq, Repr

/-- Lookup of a path in the filesystem. -/
def Fs.find (fs : Fs) (p : List String) : Option Entry :=
  (fs.entries.find? (fun e => e.1 == p)).map (fun e => e.2)

/-- Python os.path.exists (links in this model are never dangling). -/
def pathExists (fs : Fs) (p : List String) : Bool :=
  (fs.find p).isSome

/-- Errors corresponding to the Python exceptions the source can raise. -/
inductive Err where
  | fileNotFound (p : List String)
  | invalidArgument (p : List String)
  | assertionError
  | calledProcessError (addr : String)
  | keyError (k : String)
  | osError (addr : String)
deriving DecidableEq, Repr

/-- Python os.readlink: FileNotFoundError when the path is absent, OSError
EINVAL when the path is not a symbolic link. -/
def readlink (fs : Fs) (p : List String) : Except Err String :=
  match fs.find p with
  | some (Entry.link t) => Except.ok t
  | some Entry.file => Except.error (Err.invalidArgument p)
  | none => Except.error (Err.fileNotFound p)

/-- Helper class for interaction with a PCI device (sriovify.PCIDevice). -/
structure PCIDevice where
  pci_addr : String
deriving DecidableEq, Repr

/-- The /sys path for the PCI device, as a segment list. -/
def PCIDevice.path (d : PCIDevice) : List String :=
  ["sys", "bus", "pci", "devices", d.pci_addr]

/-- The /sys subpath helper; in the source every subpath argument is a single
segment, so os.path.join appends one segment. -/
def PCIDevice.subpath (d : PCIDevice) (sub : String) : List String :=
  d.path ++ [sub]

/-- Kernel driver for the PCI device: basename of the driver link target.
The source performs os.readlink without handling FileNotFoundError, so an
unbound device raises. -/
def PCIDevice.driver (fs : Fs) (d : PCIDevice) : Except Err String :=
  (readlink fs (d.subpath "driver")).map basename

/-- Whether the device is bound to a kernel driver: existence of the driver
link. -/
def PCIDevice.bound (fs : Fs) (d : PCIDevice) : Bool :=
  pathExists fs (d.subpath "driver")

/-- Whether the device is an SR-IOV physical function: existence of the
sriov_numvfs marker. -/
def PCIDevice.is_pf (fs : Fs) (d : PCIDevice) : Bool :=
  pathExists fs (d.subpath "sriov_numvfs")

/-- Whether the device is an SR-IOV virtual function: existence of the
physfn link. -/
def PCIDevice.is_vf (fs : Fs) (d : PCIDevice) : Bool :=
  pathExists fs (d.subpath "physfn")

/-- The loop body of PCIDevice.vf_addrs: probe virtfn0, virtfn1, ... and
collect the basenames of the link targets, stopping at the first index whose
link is absent (FileNotFoundError is caught; any other readlink error
propagates).  The fuel argument only bounds the number of iterations; with
the fuel used by vf_addrs the loop always stops at the first missing index,
because a filesystem with n entries cannot contain links at n + 1 distinct
paths. -/
def vf_addrsAux (fs : Fs) (d : PCIDevice) : Nat → Nat → Except Err (List String)
  | 0, i => Except.error (Err.fileNotFound (d.subpath ("virtfn" ++ Nat.repr i)))
  | fuel + 1, i =>
    match readlink fs (d.subpath ("virtfn" ++ Nat.repr i)) with
    | Except.ok t =>
      (vf_addrsAux fs d fuel (i + 1)).map (fun rest => basename t :: rest)
    | Except.error (Err.fileNotFound _) => Except.ok []
    | Except.error e => Except.error e

/-- List of virtual function PCI addresses of a physical function. -/
def PCIDevice.vf_addrs (fs : Fs) (d : PCIDevice) : Except Err (List String) :=
  vf_addrsAux fs d (fs.entries.length + 1) 0

/-- List of virtual functions of a physical function, as PCIDevice values. -/
def PCIDevice.vfs (fs : Fs) (d : PCIDevice) : Except Err (List PCIDevice) :=
  (d.vf_addrs fs).map (fun l => l.map PCIDevice.mk)

/-- Split a relative path on slashes into its segments. -/
def splitChars : List Char → List Char → List (List Char)
  | [], acc => [acc.reverse]
  | c :: cs, acc => if c = '/' then acc.reverse :: splitChars cs [] else splitChars cs (c :: acc)

/-- Segments of a slash-separated relative path. -/
def splitSlash (s : String) : List String :=
  (splitChars s.data []).map (fun l => ⟨l⟩)

/-- Path into the netdev sysfs subtree (sriovify.netdev_sys); the path
argument may contain slashes and is split into segments as os.path.join
would produce them. -/
def netdev_sys (netdev : String) (p : String) : List String :=
  ["sys", "class", "net", netdev] ++ splitSlash p

/-- Whether a netdev device is an SR-IOV physical function. -/
def netdev_is_pf (fs : Fs) (netdev : String) : Bool :=
  pathExists fs (netdev_sys netdev "device/sriov_numvfs")

/-- Whether a netdev device is an SR-IOV virtual function. -/
def netdev_is_vf (fs : Fs) (netdev : String) : Bool :=
  pathExists fs (netdev_sys netdev "device/physfn")

/-- PCI address of the physical function of an SR-IOV virtual function
netdev.  The source asserts netdev_is_vf first, so a non-VF argument is an
AssertionError. -/
def netdev_get_pf_pci (fs : Fs) (netdev : String) : Except Err String :=
  if netdev_is_vf fs netdev then
    (readlink fs (netdev_sys netdev "device/physfn")).map basename
  else Except.error Err.assertionError

/-- Kernel driver in use for a netdev device; as with PCIDevice.driver, a
missing driver link raises FileNotFoundError. -/
def netdev_get_driver (fs : Fs) (netdev : String) : Except Err String :=
  (readlink fs (netdev_sys netdev "device/driver")).map basename

/-- Python dict assignment: replace the value under an existing key, else
append the new binding (insertion order is kept, as dicts do). -/
def dinsert (m : List (String × String)) (k v : String) : List (String × String) :=
  if m.any (fun e => e.1 == k) then
    m.map (fun e => if e.1 = k then (k, v) else e)
  else m ++ [(k, v)]

/-- Python dict lookup, as an Option. -/
def dlookup (m : List (String × String)) (k : String) : Option String :=
  (m.find? (fun e => e.1 == k)).map (fun e => e.2)

/-- sriovify.build_pci_to_netdev: for every netdev in the listing of
/sys/class/net, resolve its backing device link; FileNotFoundError is caught
and the netdev skipped (virtual interfaces), other errors propagate. -/
def buildAux (fs : Fs) (m : List (String × String)) :
    List String → Except Err (List (String × String))
  | [] => Except.ok m
  | netdev :: rest =>
    match readlink fs (netdev_sys netdev "device") with
    | Except.ok t => buildAux fs (dinsert m (basename t) netdev) rest
    | Except.error (Err.fileNotFound _) => buildAux fs m rest
    | Except.error e => Except.error e

/-- The mapping starts empty and is filled one netdev at a time. -/
def build_pci_to_netdev (fs : Fs) (netList : List String) :
    Except Err (List (String × String)) :=
  buildAux fs [] netList

/-- Code point comparison of character lists, as Python compares strings:
true when the first list is lexicographically less than or equal to the
second. -/
def charsLe : List Char → List Char → Bool
  | [], _ => true
  | _ :: _, [] => false
  | c :: cs, d :: ds =>
    if c.toNat < d.toNat then true
    else if d.toNat < c.toNat then false
    else charsLe cs ds

/-- Lexicographic less-or-equal on strings by code point. -/
def strLe (a b : String) : Bool :=
  charsLe a.data b.data

/-- Ascending order on dict items, as Python sorted compares key then value
tuples (keys in the mapping are distinct, so the value comparison never
decides the order of two entries). -/
def pairLe (a b : String × String) : Bool :=
  if a.1 = b.1 then strLe a.2 b.2 else strLe a.1 b.1

/-- The sorting relation of show as a proposition. -/
def pairRel (a b : String × String) : Prop :=
  pairLe a b = true

instance : DecidableRel pairRel := fun a b =>
  inferInstanceAs (Decidable (pairLe a b = true))

theorem charsLe_refl (a : List Char) : charsLe a a = true := by
  induction a with
  | nil => rfl
  | cons c cs ih =>
    unfold charsLe
    simp [ih]

theorem charsLe_total (a : List Char) : ∀ b, charsLe a b = true ∨ charsLe b a = true := by
  induction a with
  | nil => intro b; exact Or.inl rfl
  | cons c cs ih =>
    intro b
    cases b with
    | nil => exact Or.inr rfl
    | cons d ds =>
      unfold charsLe
      rcases Nat.lt_trichotomy c.toNat d.toNat with h | h | h
      · left; simp [h]
      · rcases ih ds with h2 | h2
        · left; simp [h, h2]
        · right; simp [h.symm, h2]
      · right; simp [h]

theorem charsLe_antisymm (a : List Char) : ∀ b,
    charsLe a b = true → charsLe b a = true → a = b := by
  induction a with
  | nil =>
    intro b hab hba
    cases b with
    | nil => rfl
    | cons d ds => exact absurd hba (by simp [charsLe])
  | cons c cs ih =>
    intro b hab hba
    cases b with
    | nil => exact absurd hab (by simp [charsLe])
    | cons d ds =>
      unfold charsLe at hab hba
      by_cases h1 : c.toNat < d.toNat
      · rw [if_neg (by omega), if_pos h1] at hba
        exact absurd hba (by simp)
      · by_cases h2 : d.toNat < c.toNat
        · rw [if_neg h1, if_pos h2] at hab
          exact absurd hab (by simp)
        · rw [if_neg h1, if_neg h2] at hab
          rw [if_neg h2, if_neg h1] at hba
          have hv : c.toNat = d.toNat := by omega
          have hcd : c = d :=
            Char.eq_of_val_eq (UInt32.toNat.inj (show c.val.toNat = d.val.toNat from hv))
          rw [hcd, ih ds hab hba]

theorem charsLe_trans (a : List Char) : ∀ b c,
    charsLe a b = true → charsLe b c = true → charsLe a c = true := by
  induction a with
  | nil => intro b c _ _; rfl
  | cons x xs ih =>
    intro b c hab hbc
    cases b with
    | nil => exact absurd hab (by simp [charsLe])
    | cons y ys =>
      cases c with
      | nil => exact absurd hbc (by simp [charsLe])
      | cons z zs =>
        unfold charsLe at hab hbc ⊢
        by_cases h1 : x.toNat < y.toNat
        · by_cases h2 : y.toNat < z.toNat
          · rw [if_pos (by omega)]
          · by_cases h3 : z.toNat < y.toNat
            · rw [if_neg h2, if_pos h3] at hbc
              exact absurd hbc (by simp)
            · rw [if_pos (by omega)]
        · by_cases h1b : y.toNat < x.toNat
          · rw [if_neg h1, if_pos h1b] at hab
            exact absurd hab (by simp)
          · rw [if_neg h1, if_neg h1b] at hab
            by_cases h2 : y.toNat < z.toNat
            · rw [if_pos (by omega)]
            · by_cases h3 : z.toNat < y.toNat
              · rw [if_neg h2, if_pos h3] at hbc
                exact absurd hbc (by simp)
              · rw [if_neg h2, if_neg h3] at hbc
                rw [if_neg (by omega), if_neg (by omega)]
                exact ih ys zs hab hbc

theorem strLe_refl (a : String) : strLe a a = true :=
  charsLe_refl a.data

theorem strLe_total (a b : String) : strLe a b = true ∨ strLe b a = true :=
  charsLe_total a.data b.data

theorem strLe_antisymm (a b : String) (hab : strLe a b = true)
    (hba : strLe b a = true) : a = b := by
  cases a with
  | mk da =>
    cases b with
    | mk db =>
      have := charsLe_antisymm da db hab hba
      rw [this]

theorem strLe_trans (a b c : String) (hab : strLe a b = true)
    (hbc : strLe b c = true) : strLe a c = true :=
  charsLe_trans a.data b.data c.data hab hbc

instance : IsTotal (String × String) pairRel := by
  constructor
  intro a b
  unfold pairRel pairLe
  by_cases h : a.1 = b.1
  · rcases strLe_total a.2 b.2 with h2 | h2
    · left; rw [if_pos h]; exact h2
    · right; rw [if_pos h.symm]; exact h2
  · rcases strLe_total a.1 b.1 with h2 | h2
    · left; rw [if_neg h]; exact h2
    · right; rw [if_neg (fun hc => h hc.symm)]; exact h2

instance : IsTrans (String × String) pairRel := by
  constructor
  intro a b c hab hbc
  unfold pairRel pairLe at hab hbc ⊢
  by_cases h1 : a.1 = b.1
  · rw [if_pos h1] at hab
    by_cases h2 : b.1 = c.1
    · rw [if_pos h2] at hbc
      rw [if_pos (h1.trans h2)]
      exact strLe_trans _ _ _ hab hbc
    · rw [if_neg h2] at hbc
      rw [if_neg (fun hc => h2 (h1 ▸ hc)), h1]
      exact hbc
  · rw [if_neg h1] at hab
    by_cases h2 : b.1 = c.1
    · rw [if_neg (fun hc => h1 (hc.trans h2.symm)), ← h2]
      exact hab
    · rw [if_neg h2] at hbc
      by_cases h3 : a.1 = c.1
      · exfalso
        apply h1
        rw [h3] at hab
        exact strLe_antisymm _ _ hbc hab ▸ h3
      · rw [if_neg h3]
        exact strLe_trans _ _ _ hab hbc

/-- Python sorted on dict items. -/
def sortPairs (m : List (String × String)) : List (String × String) :=
  List.insertionSort pairRel m

/-- The role suffix computed by sriovify.show for one netdev: PF for a
physical function, VF of its physical function netdev for a virtual
function (a physical function address missing from the mapping raises
KeyError), empty otherwise. -/
def showSuffix (fs : Fs) (m : List (String × String)) (netdev : String) :
    Except Err String :=
  if netdev_is_pf fs netdev then Except.ok "PF"
  else if netdev_is_vf fs netdev then
    match netdev_get_pf_pci fs netdev with
    | Except.ok pfpci =>
      match dlookup m pfpci with
      | some phys => Except.ok ("VF of " ++ phys)
      | none => Except.error (Err.keyError pfpci)
    | Except.error e => Except.error e
  else Except.ok ""

/-- The print loop of sriovify.show: one line per mapping entry, with the
role suffix computed first and the driver resolved while formatting. -/
def showLoop (fs : Fs) (m : List (String × String)) :
    List (String × String) → Except Err (List String)
  | [] => Except.ok []
  | pn :: rest =>
    match showSuffix fs m pn.2 with
    | Except.error e => Except.error e
    | Except.ok sfx =>
      match netdev_get_driver fs pn.2 with
      | Except.error e => Except.error e
      | Except.ok drv =>
        match showLoop fs m rest with
        | Except.error e => Except.error e
        | Except.ok restLines =>
          Except.ok ((pn.1 ++ "\t" ++ pn.2 ++ "\t" ++ drv ++ "\t" ++ sfx) :: restLines)

/-- sriovify.show: build the PCI to netdev mapping, then print one
tab-separated line per entry in ascending PCI address order.  The function
is a pure query of the filesystem view: it performs no write. -/
def show' (fs : Fs) (netList : List String) : Except Err (List String) :=
  match build_pci_to_netdev fs netList with
  | Except.error e => Except.error e
  | Except.ok m => showLoop fs m (sortPairs m)

/-- Externally visible mutations performed by the switch orchestrator, in
order: a PCI address written to the mlx5_core unbind control file, a PCI
address written to the mlx5_core bind control file, or a devlink dev set
invocation. -/
inductive Ev where
  | unbindWrite (addr : String)
  | bindWrite (addr : String)
  | devlinkSet (addr : String) (obj : String) (prop : String) (value : String)
deriving DecidableEq, Repr

/-- The world the orchestrator acts on: the sysfs view, the listing of
/sys/bus/pci/devices taken by os.listdir, the eswitch mode devlink reports
per PCI address (absence means the devlink query exits nonzero, as for a
device without SR-IOV/eswitch support), and the addresses for which the
devlink set invocation is injected to fail. -/
structure World where
  fs : Fs
  pciList : List String
  eswitchMode : List (String × String)
  setFails : List String
deriving DecidableEq, Repr

/-- Current eswitch mode recorded for an address. -/
def lookupMode (w : World) (addr : String) : Option String :=
  ((w.eswitchMode).find? (fun e => e.1 == addr)).map (fun e => e.2)

/-- PCIDevice.devlink_get for the eswitch object, projected to the mode
field the caller reads: devlink dev eswitch show pci/ADDR --json either
reports the mode or exits nonzero (CalledProcessError via
subprocess.check_output). -/
def PCIDevice.devlink_get (w : World) (d : PCIDevice) : Except Err String :=
  match lookupMode w d.pci_addr with
  | some m => Except.ok m
  | none => Except.error (Err.calledProcessError d.pci_addr)

/-- Replace the mode bound to a key, or append a new binding. -/
def modeSet (m : List (String × String)) (k v : String) : List (String × String) :=
  if m.any (fun e => e.1 == k) then
    m.map (fun e => if e.1 = k then (k, v) else e)
  else m ++ [(k, v)]

/-- PCIDevice.devlink_set: devlink dev OBJ set pci/ADDR PROP VALUE via
subprocess.check_call; a nonzero exit raises CalledProcessError.  Only the
eswitch mode property has modelled state. -/
def PCIDevice.devlink_set (w : World) (d : PCIDevice) (obj prop value : String) :
    Except Err World :=
  if w.setFails.contains d.pci_addr then
    Except.error (Err.calledProcessError d.pci_addr)
  else
    Except.ok { w with eswitchMode :=
      if obj == "eswitch" && prop == "mode" then modeSet w.eswitchMode d.pci_addr value
      else w.eswitchMode }

/-- The sysfs path of the driver link of a PCI address. -/
def driverKey (a : String) : List String :=
  PCIDevice.subpath ⟨a⟩ "driver"

/-- Modelled kernel reaction to writing ADDR into
/sys/bus/pci/drivers/mlx5_core/unbind: if the device is currently bound to
mlx5_core its driver link disappears, otherwise the write fails with
OSError. -/
def writeUnbind (w : World) (addr : String) : Except Err World :=
  match w.fs.find (driverKey addr) with
  | some (Entry.link t) =>
    if basename t == "mlx5_core" then
      Except.ok { w with fs := ⟨w.fs.entries.eraseP (fun e => e.1 == driverKey addr)⟩ }
    else Except.error (Err.osError addr)
  | _ => Except.error (Err.osError addr)

/-- Link target the kernel creates for a device bound to mlx5_core. -/
def mlx5DriverTarget : String :=
  "../../../../bus/pci/drivers/mlx5_core"

/-- Modelled kernel reaction to writing ADDR into
/sys/bus/pci/drivers/mlx5_core/bind: an unbound device gains a driver link
to mlx5_core, a bound device makes the write fail with OSError. -/
def writeBind (w : World) (addr : String) : Except Err World :=
  if pathExists w.fs (driverKey addr) then Except.error (Err.osError addr)
  else Except.ok { w with fs := ⟨(driverKey addr, Entry.link mlx5DriverTarget) :: w.fs.entries⟩ }

/-- The unbind loop of sriovify.switch: for each VF in order, if it is
bound, write its address to the unbind control file and record it in the
rebond list; the first failing write aborts the loop with its error. -/
def unbindVFs (w : World) : List String → World × List Ev × List String × Option Err
  | [] => (w, [], [], none)
  | a :: rest =>
    if PCIDevice.bound w.fs ⟨a⟩ then
      match writeUnbind w a with
      | Except.ok w1 =>
        let r := unbindVFs w1 rest
        (r.1, Ev.unbindWrite a :: r.2.1, a :: r.2.2.1, r.2.2.2)
      | Except.error e => (w, [], [], some e)
    else unbindVFs w rest

/-- The finally block of sriovify.switch: write every recorded address to
the bind control file, in unbind order; the first failing write aborts with
its error. -/
def bindVFs (w : World) : List String → World × List Ev × Option Err
  | [] => (w, [], none)
  | a :: rest =>
    match writeBind w a with
    | Except.ok w1 =>
      let r := bindVFs w1 rest
      (r.1, Ev.bindWrite a :: r.2.1, r.2.2)
    | Except.error e => (w, [], some e)

/-- The body of the device loop of sriovify.switch for one PCI address:
filter to mlx5_core physical functions, compute the VF list (the print call
evaluates pcidev.vfs, so an error there propagates), skip PFs without VFs,
query the eswitch mode (a query failure propagates), skip modes other than
legacy, and otherwise unbind the bound VFs, set the eswitch mode to
switchdev, and in a finally block rebind the recorded VFs.  A Python
exception raised in the finally block replaces the original one. -/
def processDevice (w : World) (pci_addr : String) : World × List Ev × Option Err :=
  let d : PCIDevice := ⟨pci_addr⟩
  if PCIDevice.is_pf w.fs d then
    match PCIDevice.driver w.fs d with
    | Except.error e => (w, [], some e)
    | Except.ok drv =>
      if drv == "mlx5_core" then
        match PCIDevice.vf_addrs w.fs d with
        | Except.error e => (w, [], some e)
        | Except.ok vfl =>
          if vfl.isEmpty then (w, [], none)
          else
            match PCIDevice.devlink_get w d with
            | Except.error e => (w, [], some e)
            | Except.ok mode =>
              if mode == "legacy" then
                let u := unbindVFs w vfl
                match u.2.2.2 with
                | some e =>
                  let br := bindVFs u.1 u.2.2.1
                  (br.1, u.2.1 ++ br.2.1, some (br.2.2.getD e))
                | none =>
                  match PCIDevice.devlink_set u.1 d "eswitch" "mode" "switchdev" with
                  | Except.ok w2 =>
                    let br := bindVFs w2 u.2.2.1
                    (br.1, u.2.1 ++ Ev.devlinkSet pci_addr "eswitch" "mode" "switchdev" :: br.2.1,
                      br.2.2)
                  | Except.error e =>
                    let br := bindVFs u.1 u.2.2.1
                    (br.1, u.2.1 ++ br.2.1, some (br.2.2.getD e))
              else (w, [], none)
      else (w, [], none)
  else (w, [], none)

/-- The device loop of sriovify.switch over a listing of PCI addresses; an
error raised while processing a device aborts the loop and propagates. -/
def switchGo (w : World) : List String → World × List Ev × Option Err
  | [] => (w, [], none)
  | a :: rest =>
    let r := processDevice w a
    match r.2.2 with
    | some e => (r.1, r.2.1, some e)
    | none =>
      let r2 := switchGo r.1 rest
      (r2.1, r.2.1 ++ r2.2.1, r2.2.2)

/-- sriovify.switch: configure capable devices into switchdev mode, over
the listing of /sys/bus/pci/devices taken at entry. -/
def switch (w : World) : World × List Ev × Option Err :=
  switchGo w w.pciList

/-! Basic lemmas about the filesystem map. -/

/-- The canonical mlx5_core link target has basename mlx5_core. -/
theorem basename_mlx5 : basename mlx5DriverTarget = "mlx5_core" := by decide

/-- A filesystem is well formed when no path occurs twice. -/
def keysNodup (fs : Fs) : Prop :=
  (fs.entries.map (fun e => e.1)).Nodup

theorem Fs.find_cons (p q : List String) (e : Entry) (l : List (List String × Entry)) :
    Fs.find ⟨(p, e) :: l⟩ q = if q = p then some e else Fs.find ⟨l⟩ q := by
  by_cases h : q = p
  · subst h
    simp [Fs.find, List.find?_cons]
  · simp only [Fs.find, List.find?_cons]
    have : (p == q) = false := by
      simp [Ne.symm h]
    simp [this, h, Fs.find]

theorem Fs.find_eraseP_ne (p q : List String) (l : List (List String × Entry))
    (h : q ≠ p) :
    Fs.find ⟨l.eraseP (fun e => e.1 == p)⟩ q = Fs.find ⟨l⟩ q := by
  induction l with
  | nil => rfl
  | cons a l ih =>
    by_cases ha : a.1 = p
    · have : (a.1 == p) = true := by simp [ha]
      simp only [List.eraseP_cons, this, cond_true]
      rw [show (⟨a :: l⟩ : Fs) = ⟨a :: l⟩ from rfl]
      simp only [Fs.find, List.find?_cons]
      have : (a.1 == q) = false := by
        simp [ha, Ne.symm h]
      simp [this]
    · have : (a.1 == p) = false := by simp [ha]
      simp only [List.eraseP_cons, this, cond_false]
      simp only [Fs.find, List.find?_cons]
      cases hq : (a.1 == q) with
      | true => rfl
      | false => exact ih

theorem Fs.find_eraseP_self (p : List String) (l : List (List String × Entry))
    (hnd : (l.map (fun e => e.1)).Nodup) :
    Fs.find ⟨l.eraseP (fun e => e.1 == p)⟩ p = none := by
  induction l with
  | nil => rfl
  | cons a l ih =>
    simp only [List.map_cons, List.nodup_cons] at hnd
    by_cases ha : a.1 = p
    · have hb : (a.1 == p) = true := by simp [ha]
      simp only [List.eraseP_cons, hb, cond_true]
      subst ha
      have hn : l.find? (fun e => e.1 == a.1) = none := by
        rw [List.find?_eq_none]
        intro x hx
        simp only [beq_iff_eq]
        intro hc
        exact hnd.1 (hc ▸ List.mem_map_of_mem (fun e => e.1) hx)
      simp [Fs.find, hn]
    · have hb : (a.1 == p) = false := by simp [ha]
      simp only [List.eraseP_cons, hb, cond_false]
      have ih2 := ih hnd.2
      simp only [Fs.find, List.find?_cons, hb] at ih2 ⊢
      exact ih2

theorem keysNodup_eraseP (p : List String) (l : List (List String × Entry))
    (hnd : (l.map (fun e => e.1)).Nodup) :
    ((l.eraseP (fun e => e.1 == p)).map (fun e => e.1)).Nodup :=
  hnd.sublist ((List.eraseP_sublist l).map (fun e => e.1))

theorem keysNodup_cons (p : List String) (e : Entry) (l : List (List String × Entry))
    (habs : Fs.find ⟨l⟩ p = none) (hnd : (l.map (fun e => e.1)).Nodup) :
    (((p, e) :: l).map (fun e => e.1)).Nodup := by
  simp only [List.map_cons, List.nodup_cons]
  refine ⟨fun hmem => ?_, hnd⟩
  obtain ⟨x, hx, hx1⟩ := List.mem_map.mp hmem
  have hn : l.find? (fun e => e.1 == p) = none := by
    cases hfind : l.find? (fun e => e.1 == p) with
    | none => rfl
    | some y => simp [Fs.find, hfind] at habs
  rw [List.find?_eq_none] at hn
  exact hn x hx (by simp [hx1])

theorem length_eraseP_find (p : List String) (e : Entry) (l : List (List String × Entry))
    (h : Fs.find ⟨l⟩ p = some e) :
    (l.eraseP (fun e => e.1 == p)).length + 1 = l.length := by
  cases hfind : l.find? (fun e => e.1 == p) with
  | none => simp [Fs.find, hfind] at h
  | some x =>
    have hmem := List.mem_of_find?_eq_some hfind
    have hp := List.find?_some hfind
    have hp2 : (fun e => e.1 == p) x = true := hp
    have hlen := @List.length_eraseP_of_mem _ l x (fun e => e.1 == p) hmem hp2
    have hpos : 0 < l.length := List.length_pos.mpr (List.ne_nil_of_mem hmem)
    omega

theorem subpath_inj (a b s s2 : String) :
    PCIDevice.subpath ⟨a⟩ s = PCIDevice.subpath ⟨b⟩ s2 ↔ (a = b ∧ s = s2) := by
  simp [PCIDevice.subpath, PCIDevice.path]

theorem virtfn_ne_driver (r : String) : ("virtfn" ++ r) ≠ "driver" := by
  intro h
  have hd := congrArg String.data h
  rw [String.data_append] at hd
  have h1 : "virtfn".data = ['v', 'i', 'r', 't', 'f', 'n'] := rfl
  have h2 : "driver".data = ['d', 'r', 'i', 'v', 'e', 'r'] := rfl
  rw [h1, h2] at hd
  simp at hd

theorem sriovKey_ne_driverKey (x a : String) :
    PCIDevice.subpath ⟨x⟩ "sriov_numvfs" ≠ PCIDevice.subpath ⟨a⟩ "driver" := by
  intro h
  have := ((subpath_inj x a "sriov_numvfs" "driver").mp h).2
  exact absurd this (by decide)

theorem virtfnKey_ne_driverKey (x a : String) (i : Nat) :
    PCIDevice.subpath ⟨x⟩ ("virtfn" ++ Nat.repr i) ≠ PCIDevice.subpath ⟨a⟩ "driver" := by
  intro h
  exact virtfn_ne_driver (Nat.repr i) ((subpath_inj x a _ "driver").mp h).2

theorem readlink_congr (fs1 fs2 : Fs) (p : List String)
    (h : fs1.find p = fs2.find p) : readlink fs1 p = readlink fs2 p := by
  unfold readlink
  rw [h]

theorem pathExists_congr (fs1 fs2 : Fs) (p : List String)
    (h : fs1.find p = fs2.find p) : pathExists fs1 p = pathExists fs2 p := by
  unfold pathExists
  rw [h]

theorem driver_congr (fs1 fs2 : Fs) (d : PCIDevice)
    (h : fs1.find (d.subpath "driver") = fs2.find (d.subpath "driver")) :
    PCIDevice.driver fs1 d = PCIDevice.driver fs2 d := by
  unfold PCIDevice.driver
  rw [readlink_congr fs1 fs2 _ h]

theorem vf_addrsAux_congr (fs1 fs2 : Fs) (d : PCIDevice)
    (h : ∀ j, fs1.find (d.subpath ("virtfn" ++ Nat.repr j)) =
      fs2.find (d.subpath ("virtfn" ++ Nat.repr j))) :
    ∀ fuel i, vf_addrsAux fs1 d fuel i = vf_addrsAux fs2 d fuel i := by
  intro fuel
  induction fuel with
  | zero => intro i; rfl
  | succ n ih =>
    intro i
    unfold vf_addrsAux
    rw [readlink_congr fs1 fs2 _ (h i), ih (i + 1)]

theorem vf_addrs_congr (fs1 fs2 : Fs) (d : PCIDevice)
    (h : ∀ j, fs1.find (d.subpath ("virtfn" ++ Nat.repr j)) =
      fs2.find (d.subpath ("virtfn" ++ Nat.repr j)))
    (hlen : fs1.entries.length = fs2.entries.length) :
    PCIDevice.vf_addrs fs1 d = PCIDevice.vf_addrs fs2 d := by
  unfold PCIDevice.vf_addrs
  rw [hlen, vf_addrsAux_congr fs1 fs2 d h]

theorem driverKey_inj (a b : String) : driverKey a = driverKey b ↔ a = b := by
  unfold driverKey
  rw [subpath_inj]
  simp

theorem writeUnbind_ok_elim (w w1 : World) (a : String)
    (h : writeUnbind w a = Except.ok w1) :
    (∃ t, w.fs.find (driverKey a) = some (Entry.link t) ∧ basename t = "mlx5_core") ∧
    w1.fs.entries = w.fs.entries.eraseP (fun e => e.1 == driverKey a) ∧
    w1.pciList = w.pciList ∧ w1.eswitchMode = w.eswitchMode ∧ w1.setFails = w.setFails := by
  unfold writeUnbind at h
  split at h
  next t heq =>
    split at h
    next hm =>
      have hw := (Except.ok.injEq _ _).mp h
      refine ⟨⟨t, heq, by simpa using hm⟩, ?_, ?_, ?_, ?_⟩ <;> rw [← hw]
    next hm => exact absurd h (by simp)
  next => exact absurd h (by simp)

theorem writeUnbind_ok_intro (w : World) (a t : String)
    (hf : w.fs.find (driverKey a) = some (Entry.link t))
    (hm : basename t = "mlx5_core") :
    writeUnbind w a =
      Except.ok { w with fs := ⟨w.fs.entries.eraseP (fun e => e.1 == driverKey a)⟩ } := by
  unfold writeUnbind
  rw [hf]
  simp [hm]

theorem writeBind_ok_elim (w w1 : World) (a : String)
    (h : writeBind w a = Except.ok w1) :
    w.fs.find (driverKey a) = none ∧
    w1.fs.entries = (driverKey a, Entry.link mlx5DriverTarget) :: w.fs.entries ∧
    w1.pciList = w.pciList ∧ w1.eswitchMode = w.eswitchMode ∧ w1.setFails = w.setFails := by
  unfold writeBind at h
  by_cases hp : pathExists w.fs (driverKey a)
  · rw [if_pos hp] at h; exact absurd h (by simp)
  · rw [if_neg hp] at h
    have hf : w.fs.find (driverKey a) = none := by
      unfold pathExists at hp
      cases hx : w.fs.find (driverKey a) with
      | none => rfl
      | some v => rw [hx] at hp; simp at hp
    have hw := (Except.ok.injEq _ _).mp h
    refine ⟨hf, ?_, ?_, ?_, ?_⟩ <;> rw [← hw]

theorem writeBind_ok_intro (w : World) (a : String)
    (hf : w.fs.find (driverKey a) = none) :
    writeBind w a =
      Except.ok { w with fs := ⟨(driverKey a, Entry.link mlx5DriverTarget) :: w.fs.entries⟩ } := by
  unfold writeBind
  rw [if_neg (by unfold pathExists; rw [hf]; simp)]

/-- Characterization of the unbind loop: the trace is one unbind write per
recorded address, the recorded addresses are distinct and were bound to
mlx5_core when checked, their driver links are gone afterwards, no other
path changes, and only the filesystem component of the world changes. -/
theorem unbindVFs_spec (vfl : List String) : ∀ (w w1 : World) (tr : List Ev)
    (rb : List String) (e : Option Err),
    keysNodup w.fs → unbindVFs w vfl = (w1, tr, rb, e) →
    tr = rb.map Ev.unbindWrite ∧
    rb.Nodup ∧
    keysNodup w1.fs ∧
    w1.pciList = w.pciList ∧ w1.eswitchMode = w.eswitchMode ∧ w1.setFails = w.setFails ∧
    (∀ q, (∀ a ∈ rb, q ≠ driverKey a) → w1.fs.find q = w.fs.find q) ∧
    (∀ a ∈ rb, w1.fs.find (driverKey a) = none) ∧
    (∀ a ∈ rb, ∃ t, w.fs.find (driverKey a) = some (Entry.link t) ∧ basename t = "mlx5_core") ∧
    w1.fs.entries.length + rb.length = w.fs.entries.length := by
  induction vfl with
  | nil =>
    intro w w1 tr rb e hnd heq
    simp only [unbindVFs, Prod.mk.injEq] at heq
    obtain ⟨rfl, rfl, rfl, rfl⟩ := heq
    simp [hnd]
  | cons a rest ih =>
    intro w w1 tr rb e hnd heq
    simp only [unbindVFs] at heq
    by_cases hb : PCIDevice.bound w.fs ⟨a⟩
    · rw [if_pos hb] at heq
      split at heq
      next wmid hw =>
        obtain ⟨⟨t, hft, hbt⟩, hent, hpci, hesw, hsf⟩ := writeUnbind_ok_elim w wmid a hw
        rcases hr : unbindVFs wmid rest with ⟨w2, tr2, rb2, e2⟩
        rw [hr] at heq
        simp only [Prod.mk.injEq] at heq
        obtain ⟨rfl, rfl, rfl, rfl⟩ := heq
        have hndmid : keysNodup wmid.fs := by
          unfold keysNodup
          rw [hent]
          exact keysNodup_eraseP _ _ hnd
        obtain ⟨ih1, ih2, ih3, ih4, ih5, ih6, ih7, ih8, ih9, ih10⟩ :=
          ih wmid w2 tr2 rb2 e2 hndmid hr
        have hmid_self : wmid.fs.find (driverKey a) = none := by
          have : wmid.fs.find (driverKey a) =
              Fs.find ⟨w.fs.entries.eraseP (fun e => e.1 == driverKey a)⟩ (driverKey a) := by
            show Fs.find ⟨wmid.fs.entries⟩ _ = _
            rw [hent]
          rw [this]
          exact Fs.find_eraseP_self _ _ hnd
        have hmid_ne : ∀ q, q ≠ driverKey a → wmid.fs.find q = w.fs.find q := by
          intro q hq
          have : wmid.fs.find q =
              Fs.find ⟨w.fs.entries.eraseP (fun e => e.1 == driverKey a)⟩ q := by
            show Fs.find ⟨wmid.fs.entries⟩ _ = _
            rw [hent]
          rw [this]
          exact Fs.find_eraseP_ne _ _ _ hq
        have hanotin : a ∉ rb2 := by
          intro hmem
          obtain ⟨t2, ht2, _⟩ := ih9 a hmem
          rw [hmid_self] at ht2
          exact absurd ht2 (by simp)
        refine ⟨?_, ?_, ih3, ?_, ?_, ?_, ?_, ?_, ?_, ?_⟩
        · simp [ih1]
        · exact List.nodup_cons.mpr ⟨hanotin, ih2⟩
        · rw [ih4, hpci]
        · rw [ih5, hesw]
        · rw [ih6, hsf]
        · intro q hq
          have hq2 : ∀ x ∈ rb2, q ≠ driverKey x := fun x hx =>
            hq x (List.mem_cons_of_mem a hx)
          rw [ih7 q hq2]
          exact hmid_ne q (hq a (List.mem_cons_self a rb2))
        · intro x hx
          rcases List.mem_cons.mp hx with rfl | hx2
          · have hq2 : ∀ y ∈ rb2, driverKey x ≠ driverKey y := by
              intro y hy hc
              exact hanotin ((driverKey_inj x y).mp hc ▸ hy)
            rw [ih7 _ hq2]
            exact hmid_self
          · exact ih8 x hx2
        · intro x hx
          rcases List.mem_cons.mp hx with rfl | hx2
          · exact ⟨t, hft, hbt⟩
          · obtain ⟨t2, ht2, hbt2⟩ := ih9 x hx2
            have hxa : x ≠ a := by
              intro hc
              rw [hc, hmid_self] at ht2
              exact absurd ht2 (by simp)
            refine ⟨t2, ?_, hbt2⟩
            rw [← hmid_ne (driverKey x) (fun hc => hxa ((driverKey_inj x a).mp hc))]
            exact ht2
        · have hlen := length_eraseP_find (driverKey a) (Entry.link t) w.fs.entries hft
          have : wmid.fs.entries.length + 1 = w.fs.entries.length := by
            rw [hent]
            exact hlen
          simp only [List.length_cons]
          omega
      next err hw =>
        simp only [Prod.mk.injEq] at heq
        obtain ⟨rfl, rfl, rfl, rfl⟩ := heq
        simp [hnd]
    · rw [if_neg hb] at heq
      exact ih w w1 tr rb e hnd heq

/-- With distinct VF addresses, the recorded rebond list of a completed
unbind loop is exactly the sublist of VFs that were bound at entry. -/
theorem unbindVFs_rb_filter (vfl : List String) : ∀ (w w1 : World) (tr : List Ev)
    (rb : List String),
    keysNodup w.fs → vfl.Nodup → unbindVFs w vfl = (w1, tr, rb, none) →
    rb = vfl.filter (fun a => PCIDevice.bound w.fs ⟨a⟩) := by
  induction vfl with
  | nil =>
    intro w w1 tr rb hnd hvn heq
    simp only [unbindVFs, Prod.mk.injEq] at heq
    obtain ⟨rfl, rfl, rfl, -⟩ := heq
    rfl
  | cons a rest ih =>
    intro w w1 tr rb hnd hvn heq
    simp only [List.nodup_cons] at hvn
    simp only [unbindVFs] at heq
    by_cases hb : PCIDevice.bound w.fs ⟨a⟩
    · rw [if_pos hb] at heq
      split at heq
      next wmid hw =>
        obtain ⟨⟨t, hft, hbt⟩, hent, hpci, hesw, hsf⟩ := writeUnbind_ok_elim w wmid a hw
        rcases hr : unbindVFs wmid rest with ⟨w2, tr2, rb2, e2⟩
        rw [hr] at heq
        simp only [Prod.mk.injEq] at heq
        obtain ⟨rfl, rfl, rfl, rfl⟩ := heq
        have hndmid : keysNodup wmid.fs := by
          unfold keysNodup
          rw [hent]
          exact keysNodup_eraseP _ _ hnd
        have hmid_ne : ∀ q, q ≠ driverKey a → wmid.fs.find q = w.fs.find q := by
          intro q hq
          have : wmid.fs.find q =
              Fs.find ⟨w.fs.entries.eraseP (fun e => e.1 == driverKey a)⟩ q := by
            show Fs.find ⟨wmid.fs.entries⟩ _ = _
            rw [hent]
          rw [this]
          exact Fs.find_eraseP_ne _ _ _ hq
        have hrb2 := ih wmid w2 tr2 rb2 hndmid hvn.2 hr
        have hfe : rest.filter (fun x => PCIDevice.bound wmid.fs ⟨x⟩) =
            rest.filter (fun x => PCIDevice.bound w.fs ⟨x⟩) := by
          apply List.filter_congr
          intro x hx
          have hxa : x ≠ a := fun hc => hvn.1 (hc ▸ hx)
          show pathExists wmid.fs (driverKey x) = pathExists w.fs (driverKey x)
          exact pathExists_congr _ _ _
            (hmid_ne _ (fun hc => hxa ((driverKey_inj x a).mp hc)))
        simp only [List.filter_cons, hb]
        rw [hrb2, hfe]
        rfl
      next err hw =>
        simp only [Prod.mk.injEq] at heq
        exact absurd heq.2.2.2 (by simp)
    · rw [if_neg hb] at heq
      have := ih w w1 tr rb hnd hvn.2 heq
      simp only [List.filter_cons, hb]
      rw [this]
      simp [hb]

/-- The finally block succeeds when every recorded address is unbound and
the addresses are distinct: one bind write per address in order, the driver
links reappear, nothing else changes. -/
theorem bindVFs_ok (rb : List String) : ∀ (w : World),
    keysNodup w.fs → rb.Nodup → (∀ a ∈ rb, w.fs.find (driverKey a) = none) →
    ∃ w2, bindVFs w rb = (w2, rb.map Ev.bindWrite, none) ∧
      keysNodup w2.fs ∧
      w2.pciList = w.pciList ∧ w2.eswitchMode = w.eswitchMode ∧ w2.setFails = w.setFails ∧
      (∀ q, (∀ a ∈ rb, q ≠ driverKey a) → w2.fs.find q = w.fs.find q) ∧
      (∀ a ∈ rb, w2.fs.find (driverKey a) = some (Entry.link mlx5DriverTarget)) ∧
      w2.fs.entries.length = w.fs.entries.length + rb.length := by
  induction rb with
  | nil =>
    intro w hnd _ _
    exact ⟨w, rfl, hnd, rfl, rfl, rfl, fun q _ => rfl, by simp, rfl⟩
  | cons a rest ih =>
    intro w hnd hrn habs
    simp only [List.nodup_cons] at hrn
    have hfa : w.fs.find (driverKey a) = none := habs a (List.mem_cons_self a rest)
    have hwb := writeBind_ok_intro w a hfa
    set wmid : World :=
      { w with fs := ⟨(driverKey a, Entry.link mlx5DriverTarget) :: w.fs.entries⟩ } with hwmid
    have hfind_mid : ∀ q, wmid.fs.find q =
        if q = driverKey a then some (Entry.link mlx5DriverTarget) else w.fs.find q := by
      intro q
      exact Fs.find_cons _ _ _ _
    have hndmid : keysNodup wmid.fs := keysNodup_cons _ _ _ hfa hnd
    have habs2 : ∀ x ∈ rest, wmid.fs.find (driverKey x) = none := by
      intro x hx
      rw [hfind_mid]
      rw [if_neg (fun hc => hrn.1 ((driverKey_inj x a).mp hc ▸ hx))]
      exact habs x (List.mem_cons_of_mem a hx)
    obtain ⟨w2, hb2, hnd2, hp2, he2, hs2, hpres2, hlinks2, hlen2⟩ :=
      ih wmid hndmid hrn.2 habs2
    refine ⟨w2, ?_, hnd2, by rw [hp2], by rw [he2], by rw [hs2], ?_, ?_, ?_⟩
    · simp only [bindVFs, hwb, hb2, List.map_cons]
    · intro q hq
      rw [hpres2 q (fun x hx => hq x (List.mem_cons_of_mem a hx)), hfind_mid]
      rw [if_neg (hq a (List.mem_cons_self a rest))]
    · intro x hx
      rcases List.mem_cons.mp hx with rfl | hx2
      · rw [hpres2 _ (fun y hy hc => hrn.1 ((driverKey_inj x y).mp hc ▸ hy)), hfind_mid]
        rw [if_pos rfl]
      · exact hlinks2 x hx2
    · simp only [List.length_cons]
      rw [hlen2]
      show ((driverKey a, Entry.link mlx5DriverTarget) :: w.fs.entries).length + rest.length = _
      simp only [List.length_cons]
      omega

theorem find?_mapReplace_self (m : List (String × String)) (k v : String) :
    ((m.map (fun e => if e.1 = k then (k, v) else e)).find? (fun e => e.1 == k)).map
        (fun e => e.2) =
    (m.find? (fun e => e.1 == k)).map (fun _ => v) := by
  induction m with
  | nil => rfl
  | cons e m ih =>
    by_cases he : e.1 = k
    · simp [he]
    · simp only [List.map_cons, if_neg he]
      rw [List.find?_cons_of_neg _ (by simp [he]), List.find?_cons_of_neg _ (by simp [he])]
      exact ih

theorem find?_mapReplace_ne (m : List (String × String)) (k v q : String) (hq : q ≠ k) :
    (m.map (fun e => if e.1 = k then (k, v) else e)).find? (fun e => e.1 == q) =
    m.find? (fun e => e.1 == q) := by
  induction m with
  | nil => rfl
  | cons e m ih =>
    by_cases he : e.1 = k
    · simp only [List.map_cons, if_pos he]
      rw [List.find?_cons_of_neg _ (by simp [Ne.symm hq]),
        List.find?_cons_of_neg _ (by simp [he, Ne.symm hq])]
      exact ih
    · simp only [List.map_cons, if_neg he]
      by_cases hq2 : e.1 = q
      · rw [List.find?_cons_of_pos _ (by simp [hq2]), List.find?_cons_of_pos _ (by simp [hq2])]
      · rw [List.find?_cons_of_neg _ (by simp [hq2]), List.find?_cons_of_neg _ (by simp [hq2])]
        exact ih

theorem lookup_modeSet_self (m : List (String × String)) (k v : String) :
    ((modeSet m k v).find? (fun e => e.1 == k)).map (fun e => e.2) = some v := by
  unfold modeSet
  by_cases hany : m.any (fun e => e.1 == k)
  · rw [if_pos hany]
    rw [find?_mapReplace_self]
    obtain ⟨x, hx, hpx⟩ := List.any_eq_true.mp hany
    cases hfind : m.find? (fun e => e.1 == k) with
    | none =>
      rw [List.find?_eq_none] at hfind
      exact absurd hpx (hfind x hx)
    | some y => rfl
  · rw [if_neg hany]
    rw [List.find?_append]
    have hnone : m.find? (fun e => e.1 == k) = none := by
      rw [List.find?_eq_none]
      intro x hx hpx
      exact hany (List.any_eq_true.mpr ⟨x, hx, hpx⟩)
    rw [hnone]
    simp

theorem lookup_modeSet_ne (m : List (String × String)) (k v q : String) (hq : q ≠ k) :
    (modeSet m k v).find? (fun e => e.1 == q) = m.find? (fun e => e.1 == q) := by
  unfold modeSet
  by_cases hany : m.any (fun e => e.1 == k)
  · rw [if_pos hany]
    exact find?_mapReplace_ne m k v q hq
  · rw [if_neg hany]
    rw [List.find?_append]
    have h1 : [(k, v)].find? (fun e => e.1 == q) = none := by
      simp [Ne.symm hq]
    rw [h1]
    simp

/-- Elimination for a successful devlink eswitch mode set: only the mode
table changes, and only at the given address. -/
theorem devlink_set_ok_elim (w wq : World) (d : PCIDevice)
    (h : PCIDevice.devlink_set w d "eswitch" "mode" "switchdev" = Except.ok wq) :
    wq.fs = w.fs ∧ wq.pciList = w.pciList ∧ wq.setFails = w.setFails ∧
    (∀ q, q ≠ d.pci_addr → lookupMode wq q = lookupMode w q) ∧
    lookupMode wq d.pci_addr = some "switchdev" := by
  unfold PCIDevice.devlink_set at h
  by_cases hc : w.setFails.contains d.pci_addr
  · rw [if_pos hc] at h
    exact absurd h (by simp)
  · rw [if_neg hc] at h
    have hw := (Except.ok.injEq _ _).mp h
    have hcond : (("eswitch" == "eswitch" && "mode" == "mode") = true) := rfl
    rw [if_pos hcond] at hw
    subst hw
    refine ⟨rfl, rfl, rfl, ?_, ?_⟩
    · intro q hq
      show ((modeSet w.eswitchMode d.pci_addr "switchdev").find? (fun e => e.1 == q)).map
          (fun e => e.2) = lookupMode w q
      rw [lookup_modeSet_ne _ _ _ _ hq]
      rfl
    · exact lookup_modeSet_self _ _ _

theorem driver_eq_of_find (fs : Fs) (x t : String)
    (h : fs.find (driverKey x) = some (Entry.link t)) :
    PCIDevice.driver fs ⟨x⟩ = Except.ok (basename t) := by
  unfold PCIDevice.driver readlink
  rw [show PCIDevice.subpath ⟨x⟩ "driver" = driverKey x from rfl, h]
  rfl

theorem lookupMode_congr (w1 w2 : World) (q : String)
    (h : w1.eswitchMode = w2.eswitchMode) : lookupMode w1 q = lookupMode w2 q := by
  unfold lookupMode
  rw [h]

/-- The conditions under which the switch loop body leaves a device alone:
not a physical function, not driven by mlx5_core, no configured VFs, or an
eswitch mode other than legacy. -/
def skips (w : World) (a : String) : Prop :=
  PCIDevice.is_pf w.fs ⟨a⟩ = false
  ∨ (∃ d, PCIDevice.driver w.fs ⟨a⟩ = Except.ok d ∧ d ≠ "mlx5_core")
  ∨ (PCIDevice.driver w.fs ⟨a⟩ = Except.ok "mlx5_core" ∧
      PCIDevice.vf_addrs w.fs ⟨a⟩ = Except.ok [])
  ∨ (PCIDevice.driver w.fs ⟨a⟩ = Except.ok "mlx5_core" ∧
      (∃ l, PCIDevice.vf_addrs w.fs ⟨a⟩ = Except.ok l ∧ l ≠ []) ∧
      (∃ m, lookupMode w a = some m ∧ m ≠ "legacy"))

theorem skips_processDevice (w : World) (a : String) (h : skips w a) :
    processDevice w a = (w, [], none) := by
  unfold processDevice
  by_cases hpf : PCIDevice.is_pf w.fs ⟨a⟩
  · rw [if_pos hpf]
    rcases h with h1 | ⟨d, hd, hne⟩ | ⟨hd, hv⟩ | ⟨hd, ⟨l, hv, hlne⟩, ⟨m, hm, hmne⟩⟩
    · rw [hpf] at h1
      exact absurd h1 (by simp)
    · simp only [hd]
      rw [if_neg (by simp [hne])]
    · simp only [hd]
      rw [if_pos (by simp)]
      simp only [hv]
      rw [if_pos (by simp)]
    · simp only [hd]
      rw [if_pos (by simp)]
      simp only [hv]
      rw [if_neg (by simp [hlne])]
      unfold PCIDevice.devlink_get
      simp only [show lookupMode w a = some m from hm]
      rw [if_neg (by simp [hmne])]
  · rw [if_neg hpf]

theorem devlink_get_ok_elim (w : World) (d : PCIDevice) (m : String)
    (h : PCIDevice.devlink_get w d = Except.ok m) : lookupMode w d.pci_addr = some m := by
  unfold PCIDevice.devlink_get at h
  cases hl : lookupMode w d.pci_addr with
  | none => rw [hl] at h; exact absurd h (by simp)
  | some m2 => rw [hl] at h; rw [(Except.ok.injEq _ _).mp h]

/-- Effects of one successful iteration of the switch device loop: the
world keeps well formed, the PCI listing and fault injection are untouched,
every observation the loop makes of any device (PF marker, driver name, VF
addresses) is unchanged, modes of other devices are unchanged, and the
processed device now satisfies the skip conditions. -/
theorem processDevice_ok_main (w w' : World) (a : String) (tr : List Ev)
    (hnd : keysNodup w.fs) (h : processDevice w a = (w', tr, none)) :
    keysNodup w'.fs ∧
    w'.pciList = w.pciList ∧ w'.setFails = w.setFails ∧
    (∀ x, PCIDevice.is_pf w'.fs ⟨x⟩ = PCIDevice.is_pf w.fs ⟨x⟩) ∧
    (∀ x, PCIDevice.driver w'.fs ⟨x⟩ = PCIDevice.driver w.fs ⟨x⟩) ∧
    (∀ x, PCIDevice.vf_addrs w'.fs ⟨x⟩ = PCIDevice.vf_addrs w.fs ⟨x⟩) ∧
    (∀ q, q ≠ a → lookupMode w' q = lookupMode w q) ∧
    skips w' a := by
  unfold processDevice at h
  by_cases hpf : PCIDevice.is_pf w.fs ⟨a⟩
  case neg =>
    rw [if_neg hpf] at h
    simp only [Prod.mk.injEq] at h
    obtain ⟨rfl, -, -⟩ := h
    exact ⟨hnd, rfl, rfl, fun x => rfl, fun x => rfl, fun x => rfl, fun q _ => rfl,
      Or.inl (by simpa using hpf)⟩
  case pos =>
  rw [if_pos hpf] at h
  split at h
  next e heq =>
    simp only [Prod.mk.injEq] at h
    exact absurd h.2.2 (by simp)
  next drv hdrv =>
  by_cases hmlx : drv = "mlx5_core"
  case neg =>
    rw [if_neg (by simp [hmlx])] at h
    simp only [Prod.mk.injEq] at h
    obtain ⟨rfl, -, -⟩ := h
    exact ⟨hnd, rfl, rfl, fun x => rfl, fun x => rfl, fun x => rfl, fun q _ => rfl,
      Or.inr (Or.inl ⟨drv, hdrv, hmlx⟩)⟩
  case pos =>
  subst hmlx
  rw [if_pos (by simp)] at h
  split at h
  next e heq =>
    simp only [Prod.mk.injEq] at h
    exact absurd h.2.2 (by simp)
  next vfl hvfs =>
  by_cases hempty : vfl.isEmpty
  case pos =>
    rw [if_pos hempty] at h
    simp only [Prod.mk.injEq] at h
    obtain ⟨rfl, -, -⟩ := h
    have hvnil : vfl = [] := by
      cases vfl with
      | nil => rfl
      | cons x xs => simp [List.isEmpty] at hempty
    exact ⟨hnd, rfl, rfl, fun x => rfl, fun x => rfl, fun x => rfl, fun q _ => rfl,
      Or.inr (Or.inr (Or.inl ⟨hdrv, hvnil ▸ hvfs⟩))⟩
  case neg =>
  rw [if_neg hempty] at h
  split at h
  next e heq =>
    simp only [Prod.mk.injEq] at h
    exact absurd h.2.2 (by simp)
  next mode hmode =>
  have hlm : lookupMode w a = some mode := devlink_get_ok_elim w ⟨a⟩ mode hmode
  have hvne : vfl ≠ [] := by
    intro hc
    rw [hc] at hempty
    exact hempty rfl
  by_cases hleg : mode = "legacy"
  case neg =>
    rw [if_neg (by simp [hleg])] at h
    simp only [Prod.mk.injEq] at h
    obtain ⟨rfl, -, -⟩ := h
    exact ⟨hnd, rfl, rfl, fun x => rfl, fun x => rfl, fun x => rfl, fun q _ => rfl,
      Or.inr (Or.inr (Or.inr ⟨hdrv, ⟨vfl, hvfs, hvne⟩, ⟨mode, hlm, hleg⟩⟩))⟩
  case pos =>
  subst hleg
  rw [if_pos (by simp)] at h
  rcases hu : unbindVFs w vfl with ⟨w1, tr1, rb, e1⟩
  rw [hu] at h
  cases e1 with
  | some e =>
    simp only [Prod.mk.injEq] at h
    exact absurd h.2.2 (by simp)
  | none =>
    simp only [] at h
    obtain ⟨hub1, hub2, hub3, hub4, hub5, hub6, hub7, hub8, hub9, hub10⟩ :=
      unbindVFs_spec vfl w w1 tr1 rb none hnd hu
    cases hset : PCIDevice.devlink_set w1 ⟨a⟩ "eswitch" "mode" "switchdev" with
    | error e =>
      rw [hset] at h
      simp only [Prod.mk.injEq] at h
      exact absurd h.2.2 (by simp)
    | ok wq =>
      rw [hset] at h
      simp only [] at h
      obtain ⟨hds1, hds2, hds3, hds4, hds5⟩ := devlink_set_ok_elim w1 wq ⟨a⟩ hset
      have hnd_wq : keysNodup wq.fs := by rw [hds1]; exact hub3
      have habs : ∀ x ∈ rb, wq.fs.find (driverKey x) = none := by
        intro x hx
        rw [hds1]
        exact hub8 x hx
      obtain ⟨w2, hbO, hbnd, hbp, hbe, hbs, hbpres, hblinks, hblen⟩ :=
        bindVFs_ok rb wq hnd_wq hub2 habs
      rw [hbO] at h
      simp only [Prod.mk.injEq] at h
      obtain ⟨rfl, -, -⟩ := h
      have hfind_chain : ∀ q, (∀ y ∈ rb, q ≠ driverKey y) → w2.fs.find q = w.fs.find q := by
        intro q hq
        rw [hbpres q hq, hds1]
        exact hub7 q hq
      have hdrv_all : ∀ x, PCIDevice.driver w2.fs ⟨x⟩ = PCIDevice.driver w.fs ⟨x⟩ := by
        intro x
        by_cases hxin : x ∈ rb
        · obtain ⟨t, hft, hbt⟩ := hub9 x hxin
          rw [driver_eq_of_find w2.fs x mlx5DriverTarget (hblinks x hxin)]
          rw [driver_eq_of_find w.fs x t hft]
          rw [basename_mlx5, hbt]
        · apply driver_congr
          apply hfind_chain
          intro y hy hc
          exact hxin ((driverKey_inj x y).mp hc ▸ hy)
      have hlen_all : w2.fs.entries.length = w.fs.entries.length := by
        have h1 : wq.fs.entries.length = w1.fs.entries.length := by rw [hds1]
        omega
      have hvfs_all : ∀ x, PCIDevice.vf_addrs w2.fs ⟨x⟩ = PCIDevice.vf_addrs w.fs ⟨x⟩ := by
        intro x
        apply vf_addrs_congr
        · intro j
          apply hfind_chain
          intro y hy
          exact virtfnKey_ne_driverKey x y j
        · exact hlen_all
      have hmode_all : ∀ q, q ≠ a → lookupMode w2 q = lookupMode w q := by
        intro q hq
        rw [lookupMode_congr w2 wq q hbe, hds4 q hq, lookupMode_congr w1 w q hub5]
      have hmode_a : lookupMode w2 a = some "switchdev" := by
        rw [lookupMode_congr w2 wq a hbe]
        exact hds5
      refine ⟨hbnd, ?_, ?_, ?_, hdrv_all, hvfs_all, hmode_all, ?_⟩
      · rw [hbp, hds2, hub4]
      · rw [hbs, hds3, hub6]
      · intro x
        show pathExists w2.fs (PCIDevice.subpath ⟨x⟩ "sriov_numvfs") =
          pathExists w.fs (PCIDevice.subpath ⟨x⟩ "sriov_numvfs")
        apply pathExists_congr
        apply hfind_chain
        intro y hy
        exact sriovKey_ne_driverKey x y
      · exact Or.inr (Or.inr (Or.inr ⟨by rw [hdrv_all a]; exact hdrv,
          ⟨vfl, by rw [hvfs_all a]; exact hvfs, hvne⟩,
          ⟨"switchdev", hmode_a, by decide⟩⟩))

theorem skips_stable (w w' : World) (x b : String) (tr : List Ev)
    (hnd : keysNodup w.fs) (hs : skips w x) (h : processDevice w b = (w', tr, none)) :
    skips w' x := by
  by_cases hxb : x = b
  · subst hxb
    rw [skips_processDevice w x hs] at h
    simp only [Prod.mk.injEq] at h
    obtain ⟨rfl, -, -⟩ := h
    exact hs
  · obtain ⟨-, -, -, hispf, hdrv, hvfs, hmode, -⟩ :=
      processDevice_ok_main w w' b tr hnd h
    rcases hs with h1 | ⟨d, hd, hne⟩ | ⟨hd, hv⟩ | ⟨hd, ⟨l, hv, hlne⟩, ⟨m, hm, hmne⟩⟩
    · exact Or.inl (by rw [hispf x]; exact h1)
    · exact Or.inr (Or.inl ⟨d, by rw [hdrv x]; exact hd, hne⟩)
    · exact Or.inr (Or.inr (Or.inl ⟨by rw [hdrv x]; exact hd, by rw [hvfs x]; exact hv⟩))
    · exact Or.inr (Or.inr (Or.inr ⟨by rw [hdrv x]; exact hd,
        ⟨l, by rw [hvfs x]; exact hv, hlne⟩,
        ⟨m, by rw [hmode x hxb]; exact hm, hmne⟩⟩))

theorem switchGo_ok_spec (l : List String) : ∀ (w w' : World) (tr : List Ev),
    keysNodup w.fs → switchGo w l = (w', tr, none) →
    keysNodup w'.fs ∧ w'.pciList = w.pciList ∧
    (∀ x ∈ l, skips w' x) ∧ (∀ x, skips w x → skips w' x) := by
  induction l with
  | nil =>
    intro w w' tr hnd h
    simp only [switchGo, Prod.mk.injEq] at h
    obtain ⟨rfl, -, -⟩ := h
    exact ⟨hnd, rfl, by simp, fun x hx => hx⟩
  | cons a rest ih =>
    intro w w' tr hnd h
    simp only [switchGo] at h
    rcases hp : processDevice w a with ⟨w1, tr1, e1⟩
    rw [hp] at h
    cases e1 with
    | some e =>
      simp only [Prod.mk.injEq] at h
      exact absurd h.2.2 (by simp)
    | none =>
      simp only [] at h
      rcases hr2 : switchGo w1 rest with ⟨w2, tr2, e2⟩
      rw [hr2] at h
      simp only [Prod.mk.injEq] at h
      obtain ⟨rfl, -, he2⟩ := h
      subst he2
      obtain ⟨hnd1, hp1, hs1, -, -, -, -, hskipa⟩ :=
        processDevice_ok_main w w1 a tr1 hnd hp
      obtain ⟨hnd2, hp2, hall2, hstab2⟩ := ih w1 w2 tr2 hnd1 hr2
      refine ⟨hnd2, by rw [hp2, hp1], ?_, ?_⟩
      · intro x hx
        rcases List.mem_cons.mp hx with rfl | hx2
        · exact hstab2 x hskipa
        · exact hall2 x hx2
      · intro x hx
        exact hstab2 x (skips_stable w w1 x a tr1 hnd hx hp)

theorem switchGo_all_skips (l : List String) : ∀ (w : World),
    (∀ x ∈ l, skips w x) → switchGo w l = (w, [], none) := by
  induction l with
  | nil => intro w _; rfl
  | cons a rest ih =>
    intro w hall
    simp only [switchGo]
    simp [skips_processDevice w a (hall a (List.mem_cons_self a rest)),
      ih w (fun x hx => hall x (List.mem_cons_of_mem a hx))]

/-- The unbind loop completes without error when every bound VF in the list
is bound to mlx5_core. -/
theorem unbindVFs_ok (vfl : List String) : ∀ (w : World),
    keysNodup w.fs →
    (∀ x ∈ vfl, PCIDevice.bound w.fs ⟨x⟩ = true →
      ∃ t, w.fs.find (driverKey x) = some (Entry.link t) ∧ basename t = "mlx5_core") →
    ∃ w1 rb, unbindVFs w vfl = (w1, rb.map Ev.unbindWrite, rb, none) := by
  induction vfl with
  | nil =>
    intro w _ _
    exact ⟨w, [], rfl⟩
  | cons a rest ih =>
    intro w hnd hmlx
    by_cases hb : PCIDevice.bound w.fs ⟨a⟩
    · obtain ⟨t, hft, hbt⟩ := hmlx a (List.mem_cons_self a rest) hb
      have hwu := writeUnbind_ok_intro w a t hft hbt
      set wmid : World :=
        { w with fs := ⟨w.fs.entries.eraseP (fun e => e.1 == driverKey a)⟩ } with hwmid
      have hnd_mid : keysNodup wmid.fs := keysNodup_eraseP _ _ hnd
      have hself : wmid.fs.find (driverKey a) = none := Fs.find_eraseP_self _ _ hnd
      have hne : ∀ q, q ≠ driverKey a → wmid.fs.find q = w.fs.find q := fun q hq =>
        Fs.find_eraseP_ne _ _ _ hq
      have hmlx2 : ∀ x ∈ rest, PCIDevice.bound wmid.fs ⟨x⟩ = true →
          ∃ t2, wmid.fs.find (driverKey x) = some (Entry.link t2) ∧
            basename t2 = "mlx5_core" := by
        intro x hx hbx
        by_cases hxa : x = a
        · subst hxa
          exfalso
          have : PCIDevice.bound wmid.fs ⟨x⟩ = false := by
            show pathExists wmid.fs (driverKey x) = false
            unfold pathExists
            rw [hself]
            rfl
          rw [this] at hbx
          exact absurd hbx (by simp)
        · have hq : driverKey x ≠ driverKey a := fun hc => hxa ((driverKey_inj x a).mp hc)
          have hbw : PCIDevice.bound w.fs ⟨x⟩ = true := by
            rw [show PCIDevice.bound w.fs ⟨x⟩ = PCIDevice.bound wmid.fs ⟨x⟩ from
              (pathExists_congr _ _ _ (hne _ hq)).symm]
            exact hbx
          obtain ⟨t2, hft2, hbt2⟩ := hmlx x (List.mem_cons_of_mem a hx) hbw
          exact ⟨t2, by rw [hne _ hq]; exact hft2, hbt2⟩
      obtain ⟨w1, rb, hu⟩ := ih wmid hnd_mid hmlx2
      refine ⟨w1, a :: rb, ?_⟩
      simp only [unbindVFs, if_pos hb, hwu, hu, List.map_cons]
    · have hmlx2 : ∀ x ∈ rest, PCIDevice.bound w.fs ⟨x⟩ = true →
          ∃ t, w.fs.find (driverKey x) = some (Entry.link t) ∧ basename t = "mlx5_core" :=
        fun x hx => hmlx x (List.mem_cons_of_mem a hx)
      obtain ⟨w1, rb, hu⟩ := ih w hnd hmlx2
      refine ⟨w1, rb, ?_⟩
      simp only [unbindVFs, if_neg hb, hu]

/-- A legacy-mode PF whose devlink mode set is injected to fail: the loop
body unbinds the bound VFs, the mode set fails, the finally block rebinds
exactly the VFs unbound in this iteration, and the error propagates. -/
theorem processDevice_legacy_fail (w : World) (pf : String) (vfl : List String)
    (hnd : keysNodup w.fs)
    (hpf : PCIDevice.is_pf w.fs ⟨pf⟩ = true)
    (hdrv : PCIDevice.driver w.fs ⟨pf⟩ = Except.ok "mlx5_core")
    (hvfs : PCIDevice.vf_addrs w.fs ⟨pf⟩ = Except.ok vfl)
    (hvn : vfl.Nodup) (hvne : vfl ≠ [])
    (hmode : lookupMode w pf = some "legacy")
    (hmlx : ∀ x ∈ vfl, PCIDevice.bound w.fs ⟨x⟩ = true →
      ∃ t, w.fs.find (driverKey x) = some (Entry.link t) ∧ basename t = "mlx5_core")
    (hset : w.setFails.contains pf = true) :
    ∃ w', processDevice w pf =
      (w', (vfl.filter (fun x => PCIDevice.bound w.fs ⟨x⟩)).map Ev.unbindWrite ++
        (vfl.filter (fun x => PCIDevice.bound w.fs ⟨x⟩)).map Ev.bindWrite,
        some (Err.calledProcessError pf)) := by
  obtain ⟨w1, rb, hu⟩ := unbindVFs_ok vfl w hnd hmlx
  have hrb : rb = vfl.filter (fun x => PCIDevice.bound w.fs ⟨x⟩) :=
    unbindVFs_rb_filter vfl w w1 _ rb hnd hvn hu
  obtain ⟨hub1, hub2, hub3, hub4, hub5, hub6, hub7, hub8, hub9, hub10⟩ :=
    unbindVFs_spec vfl w w1 _ rb none hnd hu
  have hds : PCIDevice.devlink_set w1 ⟨pf⟩ "eswitch" "mode" "switchdev" =
      Except.error (Err.calledProcessError pf) := by
    unfold PCIDevice.devlink_set
    rw [if_pos (by rw [hub6]; exact hset)]
  obtain ⟨w2, hbO, hbnd, hbp, hbe, hbs, hbpres, hblinks, hblen⟩ :=
    bindVFs_ok rb w1 hub3 hub2 hub8
  refine ⟨w2, ?_⟩
  unfold processDevice
  rw [if_pos hpf]
  simp only [hdrv]
  rw [if_pos (by simp)]
  simp only [hvfs]
  rw [if_neg (by simp [hvne])]
  have hget : PCIDevice.devlink_get w ⟨pf⟩ = Except.ok "legacy" := by
    unfold PCIDevice.devlink_get
    rw [show lookupMode w pf = some "legacy" from hmode]
  simp only [hget]
  rw [if_pos (by simp)]
  simp only [hu, hds, hbO]
  rw [hrb]
  rfl

/-- A legacy-mode PF whose devlink mode set succeeds: the loop body unbinds
the bound VFs, sets the mode, and the finally block rebinds exactly the VFs
unbound in this iteration even though the mode set succeeded. -/
theorem processDevice_legacy_ok (w : World) (pf : String) (vfl : List String)
    (hnd : keysNodup w.fs)
    (hpf : PCIDevice.is_pf w.fs ⟨pf⟩ = true)
    (hdrv : PCIDevice.driver w.fs ⟨pf⟩ = Except.ok "mlx5_core")
    (hvfs : PCIDevice.vf_addrs w.fs ⟨pf⟩ = Except.ok vfl)
    (hvn : vfl.Nodup) (hvne : vfl ≠ [])
    (hmode : lookupMode w pf = some "legacy")
    (hmlx : ∀ x ∈ vfl, PCIDevice.bound w.fs ⟨x⟩ = true →
      ∃ t, w.fs.find (driverKey x) = some (Entry.link t) ∧ basename t = "mlx5_core")
    (hset : w.setFails.contains pf = false) :
    ∃ w', processDevice w pf =
      (w', (vfl.filter (fun x => PCIDevice.bound w.fs ⟨x⟩)).map Ev.unbindWrite ++
        Ev.devlinkSet pf "eswitch" "mode" "switchdev" ::
        (vfl.filter (fun x => PCIDevice.bound w.fs ⟨x⟩)).map Ev.bindWrite,
        none) := by
  obtain ⟨w1, rb, hu⟩ := unbindVFs_ok vfl w hnd hmlx
  have hrb : rb = vfl.filter (fun x => PCIDevice.bound w.fs ⟨x⟩) :=
    unbindVFs_rb_filter vfl w w1 _ rb hnd hvn hu
  obtain ⟨hub1, hub2, hub3, hub4, hub5, hub6, hub7, hub8, hub9, hub10⟩ :=
    unbindVFs_spec vfl w w1 _ rb none hnd hu
  set wq : World :=
    { w1 with eswitchMode :=
      if ("eswitch" == "eswitch" && "mode" == "mode") = true then
        modeSet w1.eswitchMode pf "switchdev"
      else w1.eswitchMode } with hwq
  have hds : PCIDevice.devlink_set w1 ⟨pf⟩ "eswitch" "mode" "switchdev" =
      Except.ok wq := by
    unfold PCIDevice.devlink_set
    rw [if_neg (by rw [hub6, hset]; simp)]
  have hq_fs : wq.fs = w1.fs := rfl
  have hq_nd : keysNodup wq.fs := hub3
  have habs : ∀ x ∈ rb, wq.fs.find (driverKey x) = none := fun x hx => hub8 x hx
  obtain ⟨w2, hbO, hbnd, hbp, hbe, hbs, hbpres, hblinks, hblen⟩ :=
    bindVFs_ok rb wq hq_nd hub2 habs
  refine ⟨w2, ?_⟩
  unfold processDevice
  rw [if_pos hpf]
  simp only [hdrv]
  rw [if_pos (by simp)]
  simp only [hvfs]
  rw [if_neg (by simp [hvne])]
  have hget : PCIDevice.devlink_get w ⟨pf⟩ = Except.ok "legacy" := by
    unfold PCIDevice.devlink_get
    rw [show lookupMode w pf = some "legacy" from hmode]
  simp only [hget]
  rw [if_pos (by simp)]
  simp only [hu, hds, hbO]
  rw [hrb]

theorem vf_addrsAux_char (fs : Fs) (d : PCIDevice) (t : Nat → String) :
    ∀ (m i fuel : Nat), m + 1 ≤ fuel →
    fs.find (d.subpath ("virtfn" ++ Nat.repr (i + m))) = none →
    (∀ j, j < m →
      fs.find (d.subpath ("virtfn" ++ Nat.repr (i + j))) = some (Entry.link (t (i + j)))) →
    vf_addrsAux fs d fuel i =
      Except.ok ((List.range m).map (fun j => basename (t (i + j)))) := by
  intro m
  induction m with
  | zero =>
    intro i fuel hfuel hmiss _
    cases fuel with
    | zero => omega
    | succ f =>
      unfold vf_addrsAux readlink
      rw [show i + 0 = i from rfl] at hmiss
      rw [hmiss]
      rfl
  | succ m ih =>
    intro i fuel hfuel hmiss hlinks
    cases fuel with
    | zero => omega
    | succ f =>
      have h0 : fs.find (d.subpath ("virtfn" ++ Nat.repr i)) =
          some (Entry.link (t i)) := by
        have := hlinks 0 (Nat.succ_pos m)
        rwa [show i + 0 = i from rfl] at this
      have hrec := ih (i + 1) f (by omega)
        (by rw [show i + 1 + m = i + (m + 1) from by omega]; exact hmiss)
        (fun j hj => by
          rw [show i + 1 + j = i + (j + 1) from by omega]
          exact hlinks (j + 1) (by omega))
      unfold vf_addrsAux readlink
      rw [h0]
      simp only [hrec, Except.map_ok, List.range_succ_eq_map, List.map_cons, List.map_map]
      rw [show i + 0 = i from rfl]
      refine congrArg Except.ok (congrArg (fun l => basename (t i) :: l) ?_)
      apply List.map_congr_left
      intro j hj
      simp only [Function.comp]
      rw [show i + (j + 1) = i + 1 + j from by omega]

theorem dinsert_keys_nodup (m : List (String × String)) (k v : String)
    (hnd : (m.map (fun e => e.1)).Nodup) :
    ((dinsert m k v).map (fun e => e.1)).Nodup := by
  unfold dinsert
  by_cases hany : m.any (fun e => e.1 == k)
  · rw [if_pos hany]
    have : (m.map (fun e => if e.1 = k then (k, v) else e)).map (fun e => e.1) =
        m.map (fun e => e.1) := by
      rw [List.map_map]
      apply List.map_congr_left
      intro e _
      by_cases he : e.1 = k
      · simp [Function.comp, he]
      · simp [Function.comp, he]
    rw [this]
    exact hnd
  · rw [if_neg hany]
    rw [List.map_append]
    rw [List.nodup_append]
    refine ⟨hnd, by simp, ?_⟩
    intro x hx
    simp only [List.map_cons, List.map_nil, List.mem_singleton]
    intro hk
    subst hk
    obtain ⟨e, he, he1⟩ := List.mem_map.mp hx
    exact hany (List.any_eq_true.mpr ⟨e, he, by simp [he1]⟩)

theorem buildAux_keys_nodup (fs : Fs) : ∀ (nl : List String)
    (m m2 : List (String × String)),
    (m.map (fun e => e.1)).Nodup → buildAux fs m nl = Except.ok m2 →
    (m2.map (fun e => e.1)).Nodup := by
  intro nl
  induction nl with
  | nil =>
    intro m m2 hnd h
    simp only [buildAux] at h
    rw [← (Except.ok.injEq _ _).mp h]
    exact hnd
  | cons n rest ih =>
    intro m m2 hnd h
    simp only [buildAux] at h
    split at h
    next t heq => exact ih _ m2 (dinsert_keys_nodup m (basename t) n hnd) h
    next p heq => exact ih m m2 hnd h
    next e heq hne => exact absurd h (by simp)

/-- The role suffix required by the specification of show: PF when the
netdev is a physical function, VF of the physical function netdev when it
is a virtual function, empty otherwise. -/
def suffixSpec (fs : Fs) (m : List (String × String)) (netdev sfx : String) : Prop :=
  (netdev_is_pf fs netdev = true ∧ sfx = "PF")
  ∨ (netdev_is_pf fs netdev = false ∧ netdev_is_vf fs netdev = true ∧
      ∃ pfpci phys, netdev_get_pf_pci fs netdev = Except.ok pfpci ∧
        dlookup m pfpci = some phys ∧ sfx = "VF of " ++ phys)
  ∨ (netdev_is_pf fs netdev = false ∧ netdev_is_vf fs netdev = false ∧ sfx = "")

theorem showSuffix_ok (fs : Fs) (m : List (String × String)) (netdev sfx : String)
    (h : showSuffix fs m netdev = Except.ok sfx) : suffixSpec fs m netdev sfx := by
  unfold showSuffix at h
  by_cases hpf : netdev_is_pf fs netdev
  · rw [if_pos hpf] at h
    exact Or.inl ⟨hpf, ((Except.ok.injEq _ _).mp h).symm⟩
  · rw [if_neg hpf] at h
    by_cases hvf : netdev_is_vf fs netdev
    · rw [if_pos hvf] at h
      split at h
      next pfpci heq =>
        split at h
        next phys hl =>
          exact Or.inr (Or.inl ⟨by simpa using hpf, hvf, pfpci, phys, heq, hl,
            ((Except.ok.injEq _ _).mp h).symm⟩)
        next hl => exact absurd h (by simp)
      next e heq => exact absurd h (by simp)
    · rw [if_neg hvf] at h
      exact Or.inr (Or.inr ⟨by simpa using hpf, by simpa using hvf,
        ((Except.ok.injEq _ _).mp h).symm⟩)

/-- The line printed by show for one mapping entry, as the specification
states it: PCI address, netdev name, driver and role suffix, tab separated. -/
def lineSpec (fs : Fs) (m : List (String × String)) (pn : String × String)
    (line : String) : Prop :=
  ∃ drv sfx, netdev_get_driver fs pn.2 = Except.ok drv ∧ suffixSpec fs m pn.2 sfx ∧
    line = pn.1 ++ "\t" ++ pn.2 ++ "\t" ++ drv ++ "\t" ++ sfx

theorem showLoop_forall2 (fs : Fs) (m : List (String × String)) :
    ∀ (l : List (String × String)) (L : List String),
    showLoop fs m l = Except.ok L → List.Forall₂ (lineSpec fs m) l L := by
  intro l
  induction l with
  | nil =>
    intro L h
    simp only [showLoop] at h
    rw [← (Except.ok.injEq _ _).mp h]
    exact List.Forall₂.nil
  | cons pn rest ih =>
    intro L h
    simp only [showLoop] at h
    split at h
    next e heq => exact absurd h (by simp)
    next sfx hsfx =>
      split at h
      next e heq => exact absurd h (by simp)
      next drv hdrv =>
        split at h
        next e heq => exact absurd h (by simp)
        next restLines hrest =>
          rw [← (Except.ok.injEq _ _).mp h]
          exact List.Forall₂.cons
            ⟨drv, sfx, hdrv, showSuffix_ok fs m pn.2 sfx hsfx, rfl⟩
            (ih restLines hrest)

theorem sortPairs_sorted_keys (m : List (String × String)) :
    (sortPairs m).Pairwise (fun a b => strLe a.1 b.1 = true) := by
  have hs := List.sorted_insertionSort pairRel m
  unfold List.Sorted at hs
  refine hs.imp ?_
  intro a b hab
  unfold pairRel pairLe at hab
  by_cases h : a.1 = b.1
  · rw [h]
    exact strLe_refl b.1
  · rw [if_neg h] at hab
    exact hab

theorem sortPairs_perm (m : List (String × String)) : (sortPairs m).Perm m :=
  List.perm_insertionSort pairRel m

/-! Concrete worlds used as witnesses, mirroring the fixtures of the
repository unit tests: a legacy-mode mlx5_core PF 0000:03:00.1 with two
bound VFs 0000:03:00.2 and 0000:03:00.4. -/

def exFs : Fs := ⟨[
  (PCIDevice.subpath ⟨"0000:03:00.1"⟩ "sriov_numvfs", Entry.file),
  (PCIDevice.subpath ⟨"0000:03:00.1"⟩ "driver", Entry.link mlx5DriverTarget),
  (PCIDevice.subpath ⟨"0000:03:00.1"⟩ "virtfn0", Entry.link "../0000:03:00.2"),
  (PCIDevice.subpath ⟨"0000:03:00.1"⟩ "virtfn1", Entry.link "../0000:03:00.4"),
  (PCIDevice.subpath ⟨"0000:03:00.2"⟩ "physfn", Entry.link "../0000:03:00.1"),
  (PCIDevice.subpath ⟨"0000:03:00.2"⟩ "driver", Entry.link mlx5DriverTarget),
  (PCIDevice.subpath ⟨"0000:03:00.4"⟩ "physfn", Entry.link "../0000:03:00.1"),
  (PCIDevice.subpath ⟨"0000:03:00.4"⟩ "driver", Entry.link mlx5DriverTarget)]⟩

/-- The example world: one legacy-mode PF, devlink set succeeds. -/
def exWorld : World := ⟨exFs, ["0000:03:00.1"], [("0000:03:00.1", "legacy")], []⟩

/-- Fault injection: the devlink set call on the PF fails. -/
def exWorldFail : World := { exWorld with setFails := ["0000:03:00.1"] }

/-- The PF is not SR-IOV/eswitch capable: the devlink query exits nonzero. -/
def exWorldNoSriov : World := { exWorld with eswitchMode := [] }

/-- The PF is already in switchdev mode. -/
def exWorldSwitchdev : World := { exWorld with eswitchMode := [("0000:03:00.1", "switchdev")] }

/-- C1: for every run of switch over a legacy-mode mlx5_core PF, if the
device-management mode-set call fails after N VFs were unbound in that
iteration, then exactly N bind writes are issued, one per VF that was
unbound in that iteration and in the same order, each write being that VF
PCI address, before the failure propagates to the caller. -/
theorem switch_modeset_failure_rebinds (w : World) (pf : String) (vfl : List String)
    (hnd : keysNodup w.fs)
    (hpf : PCIDevice.is_pf w.fs ⟨pf⟩ = true)
    (hdrv : PCIDevice.driver w.fs ⟨pf⟩ = Except.ok "mlx5_core")
    (hvfs : PCIDevice.vf_addrs w.fs ⟨pf⟩ = Except.ok vfl)
    (hvn : vfl.Nodup) (hvne : vfl ≠ [])
    (hmode : lookupMode w pf = some "legacy")
    (hmlx : ∀ x ∈ vfl, PCIDevice.bound w.fs ⟨x⟩ = true →
      ∃ t, w.fs.find (driverKey x) = some (Entry.link t) ∧ basename t = "mlx5_core")
    (hset : w.setFails.contains pf = true) :
    ∃ w', processDevice w pf =
      (w', ((vfl.filter (fun x => PCIDevice.bound w.fs ⟨x⟩)).map Ev.unbindWrite) ++
        ((vfl.filter (fun x => PCIDevice.bound w.fs ⟨x⟩)).map Ev.bindWrite),
        some (Err.calledProcessError pf)) ∧
      (w.pciList = [pf] → switch w =
        (w', ((vfl.filter (fun x => PCIDevice.bound w.fs ⟨x⟩)).map Ev.unbindWrite) ++
          ((vfl.filter (fun x => PCIDevice.bound w.fs ⟨x⟩)).map Ev.bindWrite),
          some (Err.calledProcessError pf))) := by
  obtain ⟨w', hp⟩ :=
    processDevice_legacy_fail w pf vfl hnd hpf hdrv hvfs hvn hvne hmode hmlx hset
  refine ⟨w', hp, ?_⟩
  intro hpl
  unfold switch
  rw [hpl]
  simp only [switchGo, hp]

theorem switch_modeset_failure_rebinds_witness :
    ∃ w', processDevice exWorldFail "0000:03:00.1" =
      (w', [Ev.unbindWrite "0000:03:00.2", Ev.unbindWrite "0000:03:00.4",
        Ev.bindWrite "0000:03:00.2", Ev.bindWrite "0000:03:00.4"],
        some (Err.calledProcessError "0000:03:00.1")) ∧
      (exWorldFail.pciList = ["0000:03:00.1"] → switch exWorldFail =
        (w', [Ev.unbindWrite "0000:03:00.2", Ev.unbindWrite "0000:03:00.4",
          Ev.bindWrite "0000:03:00.2", Ev.bindWrite "0000:03:00.4"],
          some (Err.calledProcessError "0000:03:00.1"))) :=
  switch_modeset_failure_rebinds exWorldFail "0000:03:00.1"
    ["0000:03:00.2", "0000:03:00.4"]
    (by unfold keysNodup; decide) rfl rfl rfl (by decide) (by decide) rfl
    (by
      intro x hx hb
      simp only [List.mem_cons, List.not_mem_nil, or_false] at hx
      rcases hx with rfl | rfl
      · exact ⟨mlx5DriverTarget, rfl, by decide⟩
      · exact ⟨mlx5DriverTarget, rfl, by decide⟩)
    rfl

/-- C2 (code bug): the source switch takes no rebind parameter and its
finally block runs on success as well, so on the example PF 0000:03:00.1
(driver mlx5_core, eswitch mode legacy) with bound VFs 0000:03:00.2 and
0000:03:00.4 it writes the two unbind writes and the mode set, and then,
although the mode set succeeded and no rebind was requested, issues two
further bind writes.  The repository unit tests expect switch(rebind=False)
to issue no bind write here. -/
theorem switch_rebinds_after_successful_modeset :
    (switch exWorld).2.1 =
      [Ev.unbindWrite "0000:03:00.2", Ev.unbindWrite "0000:03:00.4",
        Ev.devlinkSet "0000:03:00.1" "eswitch" "mode" "switchdev",
        Ev.bindWrite "0000:03:00.2", Ev.bindWrite "0000:03:00.4"] ∧
    (switch exWorld).2.2 = none := ⟨rfl, rfl⟩

/-- C3 (code bug): when the eswitch mode query for a filtered PF fails
because the device is not SR-IOV/eswitch capable, the source switch
propagates the query error unconditionally: it has no warn_on_no_sriov
parameter and never skips the device silently.  The repository unit tests
expect the default call to skip such a PF and only switch(werror=True) to
raise a distinguished SRIOVModeNotEnabled error. -/
theorem switch_propagates_devlink_query_failure :
    (switch exWorldNoSriov).2.1 = [] ∧
    (switch exWorldNoSriov).2.2 = some (Err.calledProcessError "0000:03:00.1") :=
  ⟨rfl, rfl⟩

/-- C4: in the switch loop body over a legacy-mode PF, a VF receives an
unbind write exactly when it was bound at the time of the check, and a VF
that was already unbound before the unbind loop receives neither an unbind
write nor a subsequent rebind write. -/
theorem switch_unbind_iff_bound (w : World) (pf : String) (vfl : List String)
    (hnd : keysNodup w.fs)
    (hpf : PCIDevice.is_pf w.fs ⟨pf⟩ = true)
    (hdrv : PCIDevice.driver w.fs ⟨pf⟩ = Except.ok "mlx5_core")
    (hvfs : PCIDevice.vf_addrs w.fs ⟨pf⟩ = Except.ok vfl)
    (hvn : vfl.Nodup) (hvne : vfl ≠ [])
    (hmode : lookupMode w pf = some "legacy")
    (hmlx : ∀ x ∈ vfl, PCIDevice.bound w.fs ⟨x⟩ = true →
      ∃ t, w.fs.find (driverKey x) = some (Entry.link t) ∧ basename t = "mlx5_core")
    (hset : w.setFails.contains pf = false) :
    ∃ w' tr, processDevice w pf = (w', tr, none) ∧
      tr = (vfl.filter (fun x => PCIDevice.bound w.fs ⟨x⟩)).map Ev.unbindWrite ++
        Ev.devlinkSet pf "eswitch" "mode" "switchdev" ::
        (vfl.filter (fun x => PCIDevice.bound w.fs ⟨x⟩)).map Ev.bindWrite ∧
      (∀ x ∈ vfl, (Ev.unbindWrite x ∈ tr ↔ PCIDevice.bound w.fs ⟨x⟩ = true)) ∧
      (∀ x ∈ vfl, PCIDevice.bound w.fs ⟨x⟩ = false →
        Ev.unbindWrite x ∉ tr ∧ Ev.bindWrite x ∉ tr) := by
  obtain ⟨w', hp⟩ :=
    processDevice_legacy_ok w pf vfl hnd hpf hdrv hvfs hvn hvne hmode hmlx hset
  refine ⟨w', _, hp, rfl, ?_, ?_⟩
  · intro x hx
    constructor
    · intro hmem
      simp only [List.mem_append, List.mem_cons, List.mem_map] at hmem
      rcases hmem with ⟨y, hy, hxy⟩ | hdl | ⟨y, hy, hxy⟩
      · obtain rfl : y = x := by
          have := (Ev.unbindWrite.injEq y x).mp hxy
          exact this
        exact (List.mem_filter.mp hy).2
      · exact absurd hdl (by simp)
      · exact absurd hxy (by simp)
    · intro hb
      simp only [List.mem_append, List.mem_cons, List.mem_map]
      exact Or.inl ⟨x, List.mem_filter.mpr ⟨hx, hb⟩, rfl⟩
  · intro x hx hb
    constructor
    · intro hmem
      simp only [List.mem_append, List.mem_cons, List.mem_map] at hmem
      rcases hmem with ⟨y, hy, hxy⟩ | hdl | ⟨y, hy, hxy⟩
      · obtain rfl : y = x := (Ev.unbindWrite.injEq y x).mp hxy
        rw [(List.mem_filter.mp hy).2] at hb
        exact absurd hb (by simp)
      · exact absurd hdl (by simp)
      · exact absurd hxy (by simp)
    · intro hmem
      simp only [List.mem_append, List.mem_cons, List.mem_map] at hmem
      rcases hmem with ⟨y, hy, hxy⟩ | hdl | ⟨y, hy, hxy⟩
      · exact absurd hxy (by simp)
      · exact absurd hdl (by simp)
      · obtain rfl : y = x := (Ev.bindWrite.injEq y x).mp hxy
        rw [(List.mem_filter.mp hy).2] at hb
        exact absurd hb (by simp)

theorem switch_unbind_iff_bound_witness :
    ∃ w' tr, processDevice exWorld "0000:03:00.1" = (w', tr, none) ∧
      tr = (["0000:03:00.2", "0000:03:00.4"].filter
          (fun x => PCIDevice.bound exWorld.fs ⟨x⟩)).map Ev.unbindWrite ++
        Ev.devlinkSet "0000:03:00.1" "eswitch" "mode" "switchdev" ::
        (["0000:03:00.2", "0000:03:00.4"].filter
          (fun x => PCIDevice.bound exWorld.fs ⟨x⟩)).map Ev.bindWrite ∧
      (∀ x ∈ ["0000:03:00.2", "0000:03:00.4"],
        (Ev.unbindWrite x ∈ tr ↔ PCIDevice.bound exWorld.fs ⟨x⟩ = true)) ∧
      (∀ x ∈ ["0000:03:00.2", "0000:03:00.4"], PCIDevice.bound exWorld.fs ⟨x⟩ = false →
        Ev.unbindWrite x ∉ tr ∧ Ev.bindWrite x ∉ tr) :=
  switch_unbind_iff_bound exWorld "0000:03:00.1" ["0000:03:00.2", "0000:03:00.4"]
    (by unfold keysNodup; decide) rfl rfl rfl (by decide) (by decide) rfl
    (by
      intro x hx hb
      simp only [List.mem_cons, List.not_mem_nil, or_false] at hx
      rcases hx with rfl | rfl
      · exact ⟨mlx5DriverTarget, rfl, by decide⟩
      · exact ⟨mlx5DriverTarget, rfl, by decide⟩)
    rfl

/-- C5: the switch procedure is idempotent per PF.  A PF whose queried
eswitch mode is not legacy is processed with zero unbind writes, zero bind
writes and zero mode-set calls and without error; and after a run of switch
that succeeded, a second run over the same listing performs no mutation at
all. -/
theorem switch_idempotent :
    (∀ (w : World) (a m : String) (vfl : List String),
      PCIDevice.is_pf w.fs ⟨a⟩ = true →
      PCIDevice.driver w.fs ⟨a⟩ = Except.ok "mlx5_core" →
      PCIDevice.vf_addrs w.fs ⟨a⟩ = Except.ok vfl → vfl ≠ [] →
      lookupMode w a = some m → m ≠ "legacy" →
      processDevice w a = (w, [], none)) ∧
    (∀ (w w' : World) (tr : List Ev), keysNodup w.fs →
      switch w = (w', tr, none) → switch w' = (w', [], none)) := by
  constructor
  · intro w a m vfl hpf hdrv hvfs hvne hm hmne
    exact skips_processDevice w a
      (Or.inr (Or.inr (Or.inr ⟨hdrv, ⟨vfl, hvfs, hvne⟩, ⟨m, hm, hmne⟩⟩)))
  · intro w w' tr hnd h
    unfold switch at h ⊢
    obtain ⟨hnd', hpl, hall, -⟩ := switchGo_ok_spec w.pciList w w' tr hnd h
    rw [hpl]
    exact switchGo_all_skips w.pciList w' hall

theorem switch_idempotent_witness :
    processDevice exWorldSwitchdev "0000:03:00.1" = (exWorldSwitchdev, [], none) ∧
    switch exWorldSwitchdev = (exWorldSwitchdev, [], none) :=
  ⟨switch_idempotent.1 exWorldSwitchdev "0000:03:00.1" "switchdev"
      ["0000:03:00.2", "0000:03:00.4"] rfl rfl rfl (by decide) rfl (by decide),
    switch_idempotent.2 exWorldSwitchdev exWorldSwitchdev []
      (by unfold keysNodup; decide) rfl⟩

/-- C6: vf_addrs probes the indexed virtfn links in increasing index order
starting at 0, returns the basenames of the link targets in that order, and
stops at the first missing index: the result is fully determined by the
links below the first missing index, so entries at higher indices are never
included.  The bound on k is implied by the other hypotheses, since the k
probed paths are distinct entries of the filesystem. -/
theorem vf_addrs_index_order (fs : Fs) (d : PCIDevice) (k : Nat) (t : Nat → String)
    (hk : k ≤ fs.entries.length)
    (hmiss : fs.find (d.subpath ("virtfn" ++ Nat.repr k)) = none)
    (hlinks : ∀ j, j < k →
      fs.find (d.subpath ("virtfn" ++ Nat.repr j)) = some (Entry.link (t j))) :
    PCIDevice.vf_addrs fs d = Except.ok ((List.range k).map (fun j => basename (t j))) := by
  unfold PCIDevice.vf_addrs
  have hchar := vf_addrsAux_char fs d t k 0 (fs.entries.length + 1) (by omega)
    (by rw [Nat.zero_add]; exact hmiss)
    (fun j hj => by rw [Nat.zero_add]; exact hlinks j hj)
  rw [hchar]
  congr 1
  apply List.map_congr_left
  intro j hj
  rw [Nat.zero_add]

/-- A PF with virtfn0 present, virtfn1 missing and virtfn2 present: the
probe must stop at index 1 and ignore virtfn2. -/
def exFsGap : Fs := ⟨[
  (PCIDevice.subpath ⟨"0000:03:00.1"⟩ "virtfn0", Entry.link "../0000:03:00.2"),
  (PCIDevice.subpath ⟨"0000:03:00.1"⟩ "virtfn2", Entry.link "../0000:03:00.9")]⟩

theorem vf_addrs_index_order_witness :
    PCIDevice.vf_addrs exFsGap ⟨"0000:03:00.1"⟩ = Except.ok ["0000:03:00.2"] :=
  vf_addrs_index_order exFsGap ⟨"0000:03:00.1"⟩ 1 (fun _ => "../0000:03:00.2")
    (by decide) rfl
    (fun j hj => by
      interval_cases j
      rfl)

/-- C7 counterexample: querying the driver of a device whose driver link is
absent does not return an absent value; it raises FileNotFoundError, on the
PCI view and on the netdev view alike. -/
theorem driver_absent_raises_counterexample :
    PCIDevice.driver exFsGap ⟨"0000:03:00.9"⟩ =
      Except.error (Err.fileNotFound (PCIDevice.subpath ⟨"0000:03:00.9"⟩ "driver")) ∧
    netdev_get_driver exFsGap "eth0" =
      Except.error (Err.fileNotFound (netdev_sys "eth0" "device/driver")) :=
  ⟨rfl, rfl⟩

/-- C7 amended: a missing driver link makes the driver query raise
FileNotFoundError, which propagates to the caller; a present link is read
without error and yields the basename of its target.  The non-raising
negative result for unbound devices is provided by the bound property, not
by driver. -/
theorem driver_absent_raises :
    (∀ (fs : Fs) (d : PCIDevice), fs.find (d.subpath "driver") = none →
      PCIDevice.driver fs d = Except.error (Err.fileNotFound (d.subpath "driver"))) ∧
    (∀ (fs : Fs) (d : PCIDevice) (t : String),
      fs.find (d.subpath "driver") = some (Entry.link t) →
      PCIDevice.driver fs d = Except.ok (basename t)) ∧
    (∀ (fs : Fs) (n : String), fs.find (netdev_sys n "device/driver") = none →
      netdev_get_driver fs n =
        Except.error (Err.fileNotFound (netdev_sys n "device/driver"))) ∧
    (∀ (fs : Fs) (n : String) (t : String),
      fs.find (netdev_sys n "device/driver") = some (Entry.link t) →
      netdev_get_driver fs n = Except.ok (basename t)) ∧
    (∀ (fs : Fs) (d : PCIDevice),
      PCIDevice.bound fs d = false ↔ fs.find (d.subpath "driver") = none) := by
  refine ⟨?_, ?_, ?_, ?_, ?_⟩
  · intro fs d h
    unfold PCIDevice.driver readlink
    rw [h]
    rfl
  · intro fs d t h
    unfold PCIDevice.driver readlink
    rw [h]
    rfl
  · intro fs n h
    unfold netdev_get_driver readlink
    rw [h]
    rfl
  · intro fs n t h
    unfold netdev_get_driver readlink
    rw [h]
    rfl
  · intro fs d
    unfold PCIDevice.bound pathExists
    cases h : fs.find (d.subpath "driver") with
    | none => simp [h]
    | some v => simp [h]

theorem driver_absent_raises_witness :
    PCIDevice.driver exFs ⟨"0000:03:00.1"⟩ = Except.ok "mlx5_core" ∧
    PCIDevice.bound exFsGap ⟨"0000:03:00.9"⟩ = false :=
  ⟨driver_absent_raises.2.1 exFs ⟨"0000:03:00.1"⟩ mlx5DriverTarget rfl,
    (driver_absent_raises.2.2.2.2 exFsGap ⟨"0000:03:00.9"⟩).mpr rfl⟩

/-- A filesystem state carrying both the SR-IOV marker and the physfn link
for the same device, on both views.  The source computes is_pf and is_vf as
two independent existence checks and nothing in it rules this state out. -/
def exFsBoth : Fs := ⟨[
  (PCIDevice.subpath ⟨"0000:03:00.1"⟩ "sriov_numvfs", Entry.file),
  (PCIDevice.subpath ⟨"0000:03:00.1"⟩ "physfn", Entry.link "../0000:03:00.0"),
  (netdev_sys "peth0" "device/sriov_numvfs", Entry.file),
  (netdev_sys "peth0" "device/physfn", Entry.link "../0000:03:00.0")]⟩

/-- C8 counterexample: is_pf and is_vf are independent existence checks, so
on a filesystem exposing both entries the flags are simultaneously true,
both on the PCIDevice view and on the NetDevice view. -/
theorem is_pf_is_vf_both_counterexample :
    (PCIDevice.is_pf exFsBoth ⟨"0000:03:00.1"⟩ = true ∧
      PCIDevice.is_vf exFsBoth ⟨"0000:03:00.1"⟩ = true) ∧
    (netdev_is_pf exFsBoth "peth0" = true ∧ netdev_is_vf exFsBoth "peth0" = true) :=
  ⟨⟨rfl, rfl⟩, ⟨rfl, rfl⟩⟩

/-- C8 amended: the two flags test the distinct paths sriov_numvfs and
physfn, so they are mutually exclusive exactly on filesystems that never
expose both entries for one device, as the kernel guarantees; the code does
not itself enforce the exclusion. -/
theorem is_pf_is_vf_exclusive :
    (∀ (fs : Fs) (d : PCIDevice),
      ¬(pathExists fs (d.subpath "sriov_numvfs") = true ∧
        pathExists fs (d.subpath "physfn") = true) →
      ¬(PCIDevice.is_pf fs d = true ∧ PCIDevice.is_vf fs d = true)) ∧
    (∀ (fs : Fs) (n : String),
      ¬(pathExists fs (netdev_sys n "device/sriov_numvfs") = true ∧
        pathExists fs (netdev_sys n "device/physfn") = true) →
      ¬(netdev_is_pf fs n = true ∧ netdev_is_vf fs n = true)) :=
  ⟨fun _ _ h => h, fun _ _ h => h⟩

theorem is_pf_is_vf_exclusive_witness :
    ¬(PCIDevice.is_pf exFs ⟨"0000:03:00.1"⟩ = true ∧
      PCIDevice.is_vf exFs ⟨"0000:03:00.1"⟩ = true) :=
  is_pf_is_vf_exclusive.1 exFs ⟨"0000:03:00.1"⟩ (by decide)

/-- C9: resolving the PF address of a VF requires the device to be a VF.
On a non-VF the call fails fast with AssertionError; under the
precondition the assertion never fires, and when the physfn entry is the
expected link the call returns the basename of its target. -/
theorem netdev_get_pf_pci_requires_vf :
    (∀ (fs : Fs) (n : String), netdev_is_vf fs n = false →
      netdev_get_pf_pci fs n = Except.error Err.assertionError) ∧
    (∀ (fs : Fs) (n t : String),
      fs.find (netdev_sys n "device/physfn") = some (Entry.link t) →
      netdev_get_pf_pci fs n = Except.ok (basename t)) ∧
    (∀ (fs : Fs) (n : String), netdev_is_vf fs n = true →
      netdev_get_pf_pci fs n ≠ Except.error Err.assertionError) := by
  refine ⟨?_, ?_, ?_⟩
  · intro fs n h
    unfold netdev_get_pf_pci
    rw [if_neg (by simp [h])]
  · intro fs n t h
    unfold netdev_get_pf_pci
    rw [if_pos (by unfold netdev_is_vf pathExists; rw [h]; rfl)]
    unfold readlink
    rw [h]
    rfl
  · intro fs n h
    unfold netdev_get_pf_pci
    rw [if_pos h]
    unfold netdev_is_vf pathExists at h
    cases hf : fs.find (netdev_sys n "device/physfn") with
    | none => rw [hf] at h; exact absurd h (by simp)
    | some entry =>
      unfold readlink
      rw [hf]
      cases entry with
      | link t => simp [Except.map]
      | file => simp [Except.map]

/-- The netdev fixture of the repository unit tests: two plain ixgbe pairs,
two ixgbe PFs, two mlx5_core PFs and their two VFs. -/
def netFs : Fs := ⟨[
  (netdev_sys "eno1" "device", Entry.link "../../../0000:01:00.0"),
  (netdev_sys "eno1" "device/driver", Entry.link "../../../../bus/pci/drivers/ixgbe"),
  (netdev_sys "eno2" "device", Entry.link "../../../0000:01:00.1"),
  (netdev_sys "eno2" "device/driver", Entry.link "../../../../bus/pci/drivers/ixgbe"),
  (netdev_sys "eno3" "device", Entry.link "../../../0000:05:00.0"),
  (netdev_sys "eno3" "device/driver", Entry.link "../../../../bus/pci/drivers/igb"),
  (netdev_sys "eno4" "device", Entry.link "../../../0000:05:00.1"),
  (netdev_sys "eno4" "device/driver", Entry.link "../../../../bus/pci/drivers/igb"),
  (netdev_sys "enp130s0f0" "device", Entry.link "../../../0000:82:00.0"),
  (netdev_sys "enp130s0f0" "device/sriov_numvfs", Entry.file),
  (netdev_sys "enp130s0f0" "device/driver", Entry.link "../../../../bus/pci/drivers/ixgbe"),
  (netdev_sys "enp130s0f1" "device", Entry.link "../../../0000:82:00.1"),
  (netdev_sys "enp130s0f1" "device/sriov_numvfs", Entry.file),
  (netdev_sys "enp130s0f1" "device/driver", Entry.link "../../../../bus/pci/drivers/ixgbe"),
  (netdev_sys "enp3s0f0" "device", Entry.link "../../../0000:03:00.0"),
  (netdev_sys "enp3s0f0" "device/sriov_numvfs", Entry.file),
  (netdev_sys "enp3s0f0" "device/driver", Entry.link "../../../../bus/pci/drivers/mlx5_core"),
  (netdev_sys "enp3s0f1" "device", Entry.link "../../../0000:03:00.1"),
  (netdev_sys "enp3s0f1" "device/sriov_numvfs", Entry.file),
  (netdev_sys "enp3s0f1" "device/driver", Entry.link "../../../../bus/pci/drivers/mlx5_core"),
  (netdev_sys "enp3s0f2" "device", Entry.link "../../../0000:03:00.2"),
  (netdev_sys "enp3s0f2" "device/driver", Entry.link "../../../../bus/pci/drivers/mlx5_core"),
  (netdev_sys "enp3s0f2" "device/physfn", Entry.link "../0000:03:00.0"),
  (netdev_sys "enp3s0f3" "device", Entry.link "../../../0000:03:00.3"),
  (netdev_sys "enp3s0f3" "device/driver", Entry.link "../../../../bus/pci/drivers/mlx5_core"),
  (netdev_sys "enp3s0f3" "device/physfn", Entry.link "../0000:03:00.1")]⟩

/-- Listing order of /sys/class/net in the fixture. -/
def netListing : List String :=
  ["eno1", "eno2", "eno3", "eno4", "enp130s0f0", "enp130s0f1",
    "enp3s0f0", "enp3s0f1", "enp3s0f2", "enp3s0f3"]

theorem netdev_get_pf_pci_requires_vf_witness :
    netdev_get_pf_pci netFs "enp3s0f1" = Except.error Err.assertionError ∧
    netdev_get_pf_pci netFs "enp3s0f2" = Except.ok "0000:03:00.0" :=
  ⟨netdev_get_pf_pci_requires_vf.1 netFs "enp3s0f1" rfl,
    netdev_get_pf_pci_requires_vf.2.1 netFs "enp3s0f2" "../0000:03:00.0" rfl⟩

/-- C10: when show succeeds it prints exactly one line per PCI-to-netdev
pair, in ascending order of PCI address, and each line is the tab-separated
PCI address, netdev name, driver, and role suffix, where the suffix is PF
for a physical function, VF of the physical function netdev for a virtual
function and empty otherwise.  The function is a pure query: building the
mapping and printing it mutate nothing. -/
theorem show_lines_spec (fs : Fs) (nl : List String) (L : List String)
    (h : show' fs nl = Except.ok L) :
    ∃ m, build_pci_to_netdev fs nl = Except.ok m ∧
      List.Forall₂ (lineSpec fs m) (sortPairs m) L ∧
      (sortPairs m).Pairwise (fun a b => strLe a.1 b.1 = true) ∧
      (sortPairs m).Perm m ∧
      (m.map (fun e => e.1)).Nodup := by
  unfold show' at h
  split at h
  next e heq => exact absurd h (by simp)
  next m hm =>
    exact ⟨m, hm, showLoop_forall2 fs m (sortPairs m) L h,
      sortPairs_sorted_keys m, sortPairs_perm m,
      buildAux_keys_nodup fs nl [] m (by simp) hm⟩

theorem show_lines_spec_witness :
    ∃ m, build_pci_to_netdev netFs netListing = Except.ok m ∧
      List.Forall₂ (lineSpec netFs m) (sortPairs m)
        ["0000:01:00.0\teno1\tixgbe\t", "0000:01:00.1\teno2\tixgbe\t",
          "0000:03:00.0\tenp3s0f0\tmlx5_core\tPF", "0000:03:00.1\tenp3s0f1\tmlx5_core\tPF",
          "0000:03:00.2\tenp3s0f2\tmlx5_core\tVF of enp3s0f0",
          "0000:03:00.3\tenp3s0f3\tmlx5_core\tVF of enp3s0f1",
          "0000:05:00.0\teno3\tigb\t", "0000:05:00.1\teno4\tigb\t",
          "0000:82:00.0\tenp130s0f0\tixgbe\tPF", "0000:82:00.1\tenp130s0f1\tixgbe\tPF"] ∧
      (sortPairs m).Pairwise (fun a b => strLe a.1 b.1 = true) ∧
      (sortPairs m).Perm m ∧
      (m.map (fun e => e.1)).Nodup :=
  show_lines_spec netFs netListing _ (by rfl)
